import Mathlib

/-!
# tinyKV: the database manager and its durability state machine

A shallow embedding of `src/server/src/fileDescriptor/DatabaseManager.cpp` and
`src/common/command/Command.hpp`.

* A byte is a natural number below 256; a byte buffer (`std::vector<std::byte>`,
  `std::span<const std::byte>`) is a `List Nat`.
* `unsigned long` is 64 bits wide and stored little-endian (`u64le`, `readU64`).
* The class `Database` is not part of the sources at hand.  Its member functions are
  taken as a parameter (`DatabaseOps`); each of them may change the database and may
  throw, which is why it returns the database afterwards and an optional response.
* An exception or an out-of-bounds read of `query` is returned as a `Failure`, next to
  the manager as it stands at that moment.
* The constructor takes the content of `dump.aof` and yields a manager or a `Failure`; its
  replay loop runs on fuel, and the length of the data is fuel enough.
* The task that drives `writable`, truncate, write and `wrote` is not part of the sources
  either; one cycle of it is modelled after the specification (`housekeeping`).
-/

namespace TinyKV

/-! ## Byte-level helpers -/

/-- The eight bytes of an `unsigned long`, least significant byte first. -/
def u64le (n : Nat) : List Nat :=
  (List.range 8).map fun i => n / 256 ^ i % 256

/-- The number a byte sequence denotes when read least significant byte first; on eight
bytes this is `*reinterpret_cast<const unsigned long *>(data)`. -/
def readU64 : List Nat → Nat
  | [] => 0
  | b :: bs => b + 256 * readU64 bs

/-! ## Commands (`Command.hpp`) -/

/-- The enumeration `Command`.  The enumerators up to `lpushx` are those of `Command.hpp`, in
declaration order.  `dump` is named by an arm of the switch in `DatabaseManager::query` but is
not declared in `Command.hpp`; it is kept so that the arm can be written down, and it has no
ordinal (see `Command.ofOrdinal`). -/
inductive Command where
  | select | del | exists | move | rename | renamenx | type | set | get
  | getRange | getBit | setBit | mget | setnx | setRange | strlen | mset | msetnx
  | incr | incrBy | decr | decrBy | append | hdel | hexists | hget | hgetAll
  | hincrBy | hkeys | hlen | hset | hvals | lindex | llen | lpop | lpush | lpushx
  | dump
  deriving DecidableEq

/-- The enumerators declared by `Command.hpp`, in declaration order: the position of an
enumerator in this list is its ordinal (`select` is 0, `lpushx` is 36). -/
def Command.declared : List Command :=
  [.select, .del, .exists, .move, .rename, .renamenx, .type, .set, .get,
   .getRange, .getBit, .setBit, .mget, .setnx, .setRange, .strlen, .mset, .msetnx,
   .incr, .incrBy, .decr, .decrBy, .append, .hdel, .hexists, .hget, .hgetAll,
   .hincrBy, .hkeys, .hlen, .hset, .hvals, .lindex, .llen, .lpop, .lpush, .lpushx]

/-- The cast `static_cast<Command>(byte)`: the declared enumerator with that ordinal, if any.
A byte that is no ordinal of a declared enumerator yields `none`; the cast itself never
fails. -/
def Command.ofOrdinal (b : Nat) : Option Command :=
  Command.declared.get? b

/-! ## The `Database` interface -/

/-- What a member function of `Database` gives back: the database afterwards, and the
response, or `none` when the function threw. -/
abbrev Reply (σ : Type) := σ × Option (List Nat)

/-- The interface of the class `Database`, whose sources (Database.hpp / Database.cpp) are not
at hand, taken as a parameter: the constructor `Database{id, data}`, `serialize()` and one
member function per arm of the switch of `query`.  `move` receives the whole map
(`database.move(this->databases, statement)`) together with the id of the source database. -/
structure DatabaseOps (D : Type) where
  create : Nat → List Nat → D
  serialize : D → List Nat
  del : D → List Nat → Reply D
  dump : D → List Nat → Reply D
  exists_ : D → List Nat → Reply D
  move : Nat → List (Nat × D) → List Nat → Reply (List (Nat × D))
  rename : D → List Nat → Reply D
  renamenx : D → List Nat → Reply D
  type : D → List Nat → Reply D
  set : D → List Nat → Reply D
  get : D → List Nat → Reply D
  getRange : D → List Nat → Reply D
  mget : D → List Nat → Reply D
  setnx : D → List Nat → Reply D
  setRange : D → List Nat → Reply D
  strlen : D → List Nat → Reply D
  mset : D → List Nat → Reply D
  msetnx : D → List Nat → Reply D
  incr : D → List Nat → Reply D

/-! ## The database map -/

/-- The member `databases`: a map from id to `Database`, kept as a list of entries with
pairwise different ids; the order of the list is the iteration order of the map. -/
abbrev Databases (D : Type) := List (Nat × D)

/-- The lookup `databases.find(id)` / `databases.at(id)`: the database stored under `id`. -/
def Databases.find {D : Type} : Databases D → Nat → Option D
  | [], _ => none
  | (k, d) :: rest, id => if k = id then some d else Databases.find rest id

/-- The assignment `result->second = d` through a reference into the map: the entry of `id`
is replaced, every other entry and the order are kept. -/
def Databases.assign {D : Type} : Databases D → Nat → D → Databases D
  | [], _, _ => []
  | (k, d) :: rest, id, v =>
    if k = id then (k, v) :: rest else (k, d) :: Databases.assign rest id v

/-- The insertion `databases.emplace(id, d)` / `databases.try_emplace(id, d)`: nothing happens
when `id` is a key already, otherwise a new entry is added. -/
def Databases.tryEmplace {D : Type} (m : Databases D) (id : Nat) (d : D) : Databases D :=
  match m.find id with
  | some _ => m
  | none => m ++ [(id, d)]

/-! ## The manager -/

/-- The data members of `DatabaseManager`. -/
structure DatabaseManager (D : Type) where
  databases : Databases D
  seconds : Nat
  writeCount : Nat
  aofBuffer : List Nat
  writeBuffer : List Nat

/-- How a call of `query` can end without a response. -/
inductive Failure where
  /-- A read outside the request span (`front()` of an empty span, or eight bytes read
  where fewer are left): undefined behaviour, nothing is reported. -/
  | outOfBounds
  /-- The exception `std::out_of_range` of `databases.at(id)`: no database has this id. -/
  | outOfRange
  /-- An exception thrown by a member function of `Database`. -/
  | database
  deriving DecidableEq

/-- The result of `query`: the manager afterwards, and the response or the failure. -/
structure Outcome (D : Type) where
  manager : DatabaseManager D
  response : Except Failure (List Nat)

/-- The first loop of the constructor: databases 0..15, each `Database{i, {}}`; counters
at zero and both buffers empty. -/
def DatabaseManager.initial {D : Type} (ops : DatabaseOps D) : DatabaseManager D where
  databases := (List.range 16).foldl (fun m i => m.tryEmplace i (ops.create i [])) []
  seconds := 0
  writeCount := 0
  aofBuffer := []
  writeBuffer := []

/-- The member function `record`: append the size of the request as an `unsigned long`, then
the request itself, and count one more write. -/
def record {D : Type} (s : DatabaseManager D) (request : List Nat) : DatabaseManager D :=
  { s with
    aofBuffer := s.aofBuffer ++ u64le request.length ++ request
    writeCount := s.writeCount + 1 }

/-- The member function `select`: `try_emplace` an empty database under `id`, answer `OK`. -/
def select {D : Type} (ops : DatabaseOps D) (s : DatabaseManager D) (id : Nat) :
    DatabaseManager D × List Nat :=
  ({ s with databases := s.databases.tryEmplace id (ops.create id []) }, [79, 75])

/-- The member function `serialize`: the number of databases as an `unsigned long`, then the
serialization of every database in iteration order. -/
def serialize {D : Type} (ops : DatabaseOps D) (s : DatabaseManager D) : List Nat :=
  s.databases.foldl (fun serialization entry => serialization ++ ops.serialize entry.2)
    (u64le s.databases.length)

/-- The condition of the first `if` of `writable` on an idle write buffer: one of the three
thresholds is reached. -/
def rolloverDue (seconds writeCount : Nat) : Bool :=
  (decide (seconds ≥ 900) && decide (writeCount > 1)) ||
  (decide (seconds ≥ 300) && decide (writeCount > 10)) ||
  (decide (seconds ≥ 60) && decide (writeCount > 10000))

/-- The member function `writable`.  `fileSize` is what `std::filesystem::file_size(filepath)`
returns at the moment of the call.  The result is the manager afterwards and the returned
flag.  After `writeBuffer = std::move(aofBuffer)` the moved-from `aofBuffer` is empty. -/
def writable {D : Type} (ops : DatabaseOps D) (fileSize : Nat) (s : DatabaseManager D) :
    DatabaseManager D × Bool :=
  let s := { s with seconds := s.seconds + 1 }
  if s.writeBuffer.isEmpty then
    if rolloverDue s.seconds s.writeCount then
      let s := { s with seconds := 0 }
      let s := { s with aofBuffer := [], writeCount := 0 }
      ({ s with writeBuffer := serialize ops s }, true)
    else if !s.aofBuffer.isEmpty then
      let s := if fileSize = 0 then { s with aofBuffer := u64le 0 ++ s.aofBuffer } else s
      ({ s with writeBuffer := s.aofBuffer, aofBuffer := [] }, true)
    else (s, false)
  else (s, false)

/-- The member function `truncatable`. -/
def truncatable {D : Type} (s : DatabaseManager D) : Bool :=
  decide (s.seconds = 0) && !s.writeBuffer.isEmpty

/-- The member function `wrote`. -/
def wrote {D : Type} (s : DatabaseManager D) : DatabaseManager D :=
  { s with writeBuffer := [] }

/-- An arm `response = database.f(statement); break;` of the switch: the database under `id`
is what the member function left, nothing is recorded. -/
def unrecorded {D : Type} (s : DatabaseManager D) (id : Nat) (r : Reply D) : Outcome D :=
  let s := { s with databases := s.databases.assign id r.1 }
  match r.2 with
  | some response => ⟨s, .ok response⟩
  | none => ⟨s, .error .database⟩

/-- An arm `response = database.f(statement); this->record(requestCopy); break;` of the
switch: `record` runs once the member function has returned. -/
def recorded {D : Type} (s : DatabaseManager D) (id : Nat) (requestCopy : List Nat)
    (r : Reply D) : Outcome D :=
  let s := { s with databases := s.databases.assign id r.1 }
  match r.2 with
  | some response => ⟨record s requestCopy, .ok response⟩
  | none => ⟨s, .error .database⟩

/-- The arm of `Command::move`: the member function works on the whole map, then the request
is recorded. -/
def movedAndRecorded {D : Type} (s : DatabaseManager D) (requestCopy : List Nat)
    (r : Reply (Databases D)) : Outcome D :=
  let s := { s with databases := r.1 }
  match r.2 with
  | some response => ⟨record s requestCopy, .ok response⟩
  | none => ⟨s, .error .database⟩

/-- The switch statement of `query`.  `command` is the enumerator the first byte was cast to
(`none`: the byte is no ordinal of a declared enumerator), `database` the entry found under
`id`.  The switch has no default label: when no arm matches, `response` is still the empty
vector it was initialised with. -/
def dispatch {D : Type} (ops : DatabaseOps D) (s : DatabaseManager D) (command : Option Command)
    (id : Nat) (database : D) (statement requestCopy : List Nat) : Outcome D :=
  match command with
  | some .select => ⟨(select ops s id).1, .ok (select ops s id).2⟩
  | some .del => recorded s id requestCopy (ops.del database statement)
  | some .dump => unrecorded s id (ops.dump database statement)
  | some .exists => unrecorded s id (ops.exists_ database statement)
  | some .move => movedAndRecorded s requestCopy (ops.move id s.databases statement)
  | some .rename => recorded s id requestCopy (ops.rename database statement)
  | some .renamenx => recorded s id requestCopy (ops.renamenx database statement)
  | some .type => unrecorded s id (ops.type database statement)
  | some .set => recorded s id requestCopy (ops.set database statement)
  | some .get => unrecorded s id (ops.get database statement)
  | some .getRange => unrecorded s id (ops.getRange database statement)
  | some .mget => unrecorded s id (ops.mget database statement)
  | some .setnx => recorded s id requestCopy (ops.setnx database statement)
  | some .setRange => recorded s id requestCopy (ops.setRange database statement)
  | some .strlen => unrecorded s id (ops.strlen database statement)
  | some .mset => recorded s id requestCopy (ops.mset database statement)
  | some .msetnx => recorded s id requestCopy (ops.msetnx database statement)
  | some .incr => recorded s id requestCopy (ops.incr database statement)
  | _ => ⟨s, .ok []⟩

/-- The member function `query`.  The command is the first byte, the id the next eight bytes,
the statement the rest; no length is checked before these reads.  `databases.at(id)` comes
before the switch, for every command. -/
def query {D : Type} (ops : DatabaseOps D) (s : DatabaseManager D) (request : List Nat) :
    Outcome D :=
  match request with
  | [] => ⟨s, .error .outOfBounds⟩
  | command :: rest =>
    if rest.length < 8 then ⟨s, .error .outOfBounds⟩
    else
      match s.databases.find (readU64 (rest.take 8)) with
      | none => ⟨s, .error .outOfRange⟩
      | some database =>
        dispatch ops s (Command.ofOrdinal command) (readU64 (rest.take 8)) database
          (rest.drop 8) request

/-! ## Recovery (the constructor) -/

/-- The loop `while (count > 0)` of the constructor: read an id and a size, each as an
`unsigned long`, hand the next `size` bytes to `Database{id, ...}`, which replaces the database
found under `id` or is emplaced as a new one, and go on behind these bytes.  No length is
checked before a read or a `subspan`; where too few bytes are left the read is outside the
buffer.  The result is the map and the bytes that are left. -/
def loadDatabases {D : Type} (ops : DatabaseOps D) :
    Nat → Databases D → List Nat → Except Failure (Databases D × List Nat)
  | 0, databases, data => .ok (databases, data)
  | count + 1, databases, data =>
    if data.length < 8 then .error .outOfBounds
    else
      let id := readU64 (data.take 8)
      let data := data.drop 8
      if data.length < 8 then .error .outOfBounds
      else
        let size := readU64 (data.take 8)
        let data := data.drop 8
        if data.length < size then .error .outOfBounds
        else
          let databases :=
            match databases.find id with
            | some _ => databases.assign id (ops.create id (data.take size))
            | none => databases.tryEmplace id (ops.create id (data.take size))
          loadDatabases ops count databases (data.drop size)

/-- The loop `while (!data.empty())` of the constructor, with what is done to each request
left open (`step`; the constructor calls `query`): read a size as an `unsigned long`, hand the
next `size` bytes to `step`, go on behind them.  No length is checked.  Every round takes at
least eight bytes, so `fuel` rounds with `fuel` the length of `data` are enough; `none` stands
for fuel that ran out. -/
def forEachRequest {σ : Type} (step : σ → List Nat → Except Failure σ) :
    Nat → σ → List Nat → Option (Except Failure σ)
  | _, s, [] => some (.ok s)
  | 0, _, _ :: _ => none
  | fuel + 1, s, b :: bs =>
    if (b :: bs).length < 8 then some (.error .outOfBounds)
    else
      let size := readU64 ((b :: bs).take 8)
      let data := (b :: bs).drop 8
      if data.length < size then some (.error .outOfBounds)
      else
        match step s (data.take size) with
        | .ok s => forEachRequest step fuel s (data.drop size)
        | .error failure => some (.error failure)

/-- The call `this->query(request)` inside the constructor: the response is dropped, an
exception leaves the constructor. -/
def replayStep {D : Type} (ops : DatabaseOps D) (s : DatabaseManager D) (request : List Nat) :
    Except Failure (DatabaseManager D) :=
  match (query ops s request).response with
  | .ok _ => .ok (query ops s request).manager
  | .error failure => .error failure

/-- The constructor `DatabaseManager::DatabaseManager`.  `file` is the content of `dump.aof`,
`none` when the file cannot be opened.  The result is the manager, or the failure that ends
the construction. -/
def DatabaseManager.construct {D : Type} (ops : DatabaseOps D) (file : Option (List Nat)) :
    Option (Except Failure (DatabaseManager D)) :=
  match file with
  | none => some (.ok (DatabaseManager.initial ops))
  | some buffer =>
    if buffer.isEmpty then some (.ok (DatabaseManager.initial ops))
    else if buffer.length < 8 then some (.error .outOfBounds)
    else
      match loadDatabases ops (readU64 (buffer.take 8)) (DatabaseManager.initial ops).databases
          (buffer.drop 8) with
      | .error failure => some (.error failure)
      | .ok (databases, data) =>
        forEachRequest (replayStep ops) data.length
          { DatabaseManager.initial ops with databases := databases } data

/-! ## A database to run the manager on -/

/-- Modelled from the spec: the class `Database` is not among the sources.  This stand-in keeps
the id and a body; it serves to evaluate the manager on concrete inputs only, and no theorem
about the manager depends on it. -/
structure SampleDatabase where
  id : Nat
  body : List Nat
  deriving DecidableEq

/-- A changing command of the stand-in: the statement is appended to the body, the answer
is `OK`. -/
def SampleDatabase.change (d : SampleDatabase) (statement : List Nat) : Reply SampleDatabase :=
  ({ d with body := d.body ++ statement }, some [79, 75])

/-- A reading command of the stand-in: the answer is the body. -/
def SampleDatabase.read (d : SampleDatabase) (_statement : List Nat) : Reply SampleDatabase :=
  (d, some d.body)

/-- Modelled from the spec: the `Database` interface filled in with the stand-in;
`serialize` emits `u64 id || u64 body_size || body` as section 4.4 of the specification
asks. -/
def sampleOps : DatabaseOps SampleDatabase where
  create := fun id data => ⟨id, data⟩
  serialize := fun d => u64le d.id ++ u64le d.body.length ++ d.body
  del := SampleDatabase.change
  dump := SampleDatabase.read
  exists_ := SampleDatabase.read
  move := fun id m statement =>
    match Databases.find m id with
    | some d => (Databases.assign m id { d with body := d.body ++ statement }, some [79, 75])
    | none => (m, none)
  rename := SampleDatabase.change
  renamenx := SampleDatabase.change
  type := SampleDatabase.read
  set := SampleDatabase.change
  get := SampleDatabase.read
  getRange := SampleDatabase.read
  mget := SampleDatabase.read
  setnx := SampleDatabase.change
  setRange := SampleDatabase.change
  strlen := SampleDatabase.read
  mset := SampleDatabase.change
  msetnx := SampleDatabase.change
  incr := SampleDatabase.change

/-! ## Notions of the specification -/

/-- The command a frame carries: the enumerator its first byte is cast to. -/
def commandOf (frame : List Nat) : Option Command :=
  match frame with
  | [] => none
  | byte :: _ => Command.ofOrdinal byte

/-- The commands the specification lists as administrative or read-only. -/
def selectOrReadOnly : List Command :=
  [.select, .get, .exists, .type, .dump, .strlen, .getRange, .mget]

/-- The command log of the specification for a sequence of requests: each request preceded by
its length as an `unsigned long`. -/
def encodeRequests (requests : List (List Nat)) : List Nat :=
  (requests.map fun request => u64le request.length ++ request).flatten

/-- The `db_record`s of the specification for a sequence of pairs of an id and a body: the id,
the length of the body, the body. -/
def encodeRecords (records : List (Nat × List Nat)) : List Nat :=
  (records.map fun r => u64le r.1 ++ (u64le r.2.length ++ r.2)).flatten

/-- What the specification says recovery does with one `db_record`: the body goes to the
existing database with that id, replacing its state, or to a newly created database. -/
def applyRecord {D : Type} (ops : DatabaseOps D) (databases : Databases D)
    (r : Nat × List Nat) : Databases D :=
  if r.1 ∈ databases.map Prod.fst then databases.assign r.1 (ops.create r.1 r.2)
  else databases ++ [(r.1, ops.create r.1 r.2)]

/-- The grammar `commandlog := { u64 req_size byte[req_size] } *` of the specification: the
bytes split, with nothing left over, into requests that each follow eight bytes holding
their length. -/
inductive IsCommandLog : List Nat → Prop
  | empty : IsCommandLog []
  | request (sizeBytes request rest : List Nat) (hsize : sizeBytes.length = 8)
      (hlength : readU64 sizeBytes = request.length) (hrest : IsCommandLog rest) :
      IsCommandLog (sizeBytes ++ (request ++ rest))

/-- The grammar `{ db_record } × count commandlog?` of the specification, with
`db_record := u64 id u64 body_size byte[body_size]`. -/
inductive IsSnapshotBody : Nat → List Nat → Prop
  | log (data : List Nat) (hlog : IsCommandLog data) : IsSnapshotBody 0 data
  | record (count : Nat) (idBytes sizeBytes body rest : List Nat) (hid : idBytes.length = 8)
      (hsize : sizeBytes.length = 8) (hlength : readU64 sizeBytes = body.length)
      (hrest : IsSnapshotBody count rest) :
      IsSnapshotBody (count + 1) (idBytes ++ (sizeBytes ++ (body ++ rest)))

/-- The grammar `file := snapshot commandlog?` of the specification: eight bytes holding
`db_count`, then that many `db_record`s, then a command log.  A file that is not of this form
is cut short somewhere: the grammar constrains lengths only. -/
def IsLogFile (file : List Nat) : Prop :=
  8 ≤ file.length ∧ IsSnapshotBody (readU64 (file.take 8)) (file.drop 8)

/-- Calls of `writable` one after the other, with no `query` and no `wrote` in between; the
list holds the size of the log file seen by each call.  The result is the manager after the
last call and the flags returned, in order. -/
def ticks {D : Type} (ops : DatabaseOps D) :
    List Nat → DatabaseManager D → DatabaseManager D × List Bool
  | [], s => (s, [])
  | fileSize :: sizes, s =>
    ((ticks ops sizes (writable ops fileSize s).1).1,
     (writable ops fileSize s).2 :: (ticks ops sizes (writable ops fileSize s).1).2)

/-- The managers that can be reached: constructed from no file or from a file of bytes, then
changed by `query` (on a request whose length fits an `unsigned long`), `writable` and
`wrote`. -/
inductive Reachable {D : Type} (ops : DatabaseOps D) : DatabaseManager D → Prop
  | constructed (file : Option (List Nat)) (s : DatabaseManager D)
      (hbytes : ∀ buffer, file = some buffer → ∀ b ∈ buffer, b < 256)
      (hconstruct : DatabaseManager.construct ops file = some (.ok s)) : Reachable ops s
  | afterQuery (s : DatabaseManager D) (request : List Nat) (hs : Reachable ops s)
      (hlength : request.length < 2 ^ 64) : Reachable ops (query ops s request).manager
  | afterWritable (s : DatabaseManager D) (fileSize : Nat) (hs : Reachable ops s) :
      Reachable ops (writable ops fileSize s).1
  | afterWrote (s : DatabaseManager D) (hs : Reachable ops s) : Reachable ops (wrote s)

/-- The mutating commands that have an arm in the switch of `query`. -/
def dispatchedMutating : List Command :=
  [.del, .move, .rename, .renamenx, .set, .setnx, .setRange, .mset, .msetnx, .incr]

/-- The mutating commands that `Command.hpp` declares and the switch of `query` has no arm
for. -/
def undispatchedMutating : List Command :=
  [.incrBy, .decr, .decrBy, .append, .hset, .hdel, .hincrBy, .lpush, .lpushx, .lpop]

/-! ## The housekeeping cycle and the round trip -/

/-- The manager together with the content of `dump.aof`. -/
structure Server (D : Type) where
  manager : DatabaseManager D
  file : List Nat

/-- Modelled from the spec: the task that drives the durability cycle is not among the
sources.  One cycle, as sections 2 and 4.1 of the specification describe it: ask `writable`
(which sees the current size of the file); when it returns true, truncate the file to length
0 if `truncatable`, write the write buffer at the end of the file, then call `wrote`. -/
def housekeeping {D : Type} (ops : DatabaseOps D) (server : Server D) : Server D :=
  if (writable ops server.file.length server.manager).2 then
    { manager := wrote (writable ops server.file.length server.manager).1
      file := (if truncatable (writable ops server.file.length server.manager).1 then []
        else server.file) ++ (writable ops server.file.length server.manager).1.writeBuffer }
  else { server with manager := (writable ops server.file.length server.manager).1 }

/-- What happens to a running server: a request frame arrives, or the housekeeping task
ticks. -/
inductive Event where
  | command (frame : List Nat)
  | tick

/-- The server after a sequence of events: a frame goes to `query`, a tick runs one
housekeeping cycle. -/
def run {D : Type} (ops : DatabaseOps D) : List Event → Server D → Server D
  | [], server => server
  | .command frame :: events, server =>
    run ops events { server with manager := (query ops server.manager frame).manager }
  | .tick :: events, server => run ops events (housekeeping ops server)

/-- The server a fresh manager runs in: the sixteen empty databases and no file content. -/
def Server.fresh {D : Type} (ops : DatabaseOps D) : Server D :=
  { manager := DatabaseManager.initial ops, file := [] }

/-- Every command of the sequence is a mutating command of the specification, in a frame
shorter than 2^64 bytes, and is applied: `query` answers it. -/
def Applied {D : Type} (ops : DatabaseOps D) : List Event → Server D → Prop
  | [], _ => True
  | .command frame :: events, server =>
    frame.length < 2 ^ 64 ∧
    (∃ command, commandOf frame = some command ∧
      command ∈ dispatchedMutating ++ undispatchedMutating) ∧
    (∃ response, (query ops server.manager frame).response = .ok response) ∧
    Applied ops events { server with manager := (query ops server.manager frame).manager }
  | .tick :: events, server => Applied ops events (housekeeping ops server)

/-- What the round trip assumes of the class `Database`, whose sources are not at hand.
`valid id d` says that `d` is a state a database of id `id` can be in.  The constructor yields
such states; such a state serializes as `u64 id || u64 body_size || body` with a body from
which the constructor rebuilds the same database (section 4.4 of the specification); a
mutating member function that returns a response leaves such a state; and `move`, when it
returns a response, keeps the ids of the map and leaves every database in such a state. -/
structure DatabaseContract {D : Type} (ops : DatabaseOps D) (valid : Nat → D → Prop) :
    Prop where
  create_valid : ∀ id, valid id (ops.create id [])
  roundTrip : ∀ id d, valid id d → ∃ body, body.length < 2 ^ 64 ∧
    ops.serialize d = u64le id ++ (u64le body.length ++ body) ∧ ops.create id body = d
  member_valid : ∀ f ∈ [ops.del, ops.rename, ops.renamenx, ops.set, ops.setnx, ops.setRange,
      ops.mset, ops.msetnx, ops.incr],
    ∀ id d statement response, valid id d → (f d statement).2 = some response →
      valid id (f d statement).1
  move_valid : ∀ id (m : Databases D) statement response, (∀ e ∈ m, valid e.1 e.2) →
    (ops.move id m statement).2 = some response →
    ((ops.move id m statement).1).map Prod.fst = m.map Prod.fst ∧
      ∀ e ∈ (ops.move id m statement).1, valid e.1 e.2

/-- A changing command of a stand-in that refuses to grow a body beyond what an
`unsigned long` can count: it throws instead. -/
def SampleDatabase.changeChecked (d : SampleDatabase) (statement : List Nat) :
    Reply SampleDatabase :=
  if d.body.length + statement.length < 2 ^ 64 then
    ({ d with body := d.body ++ statement }, some [79, 75])
  else (d, none)

/-- Modelled from the spec: the `Database` interface filled in with the stand-in whose
changing commands check the size of the body; used to run the round trip on concrete
inputs. -/
def checkedOps : DatabaseOps SampleDatabase :=
  { sampleOps with
    del := SampleDatabase.changeChecked
    rename := SampleDatabase.changeChecked
    renamenx := SampleDatabase.changeChecked
    set := SampleDatabase.changeChecked
    setnx := SampleDatabase.changeChecked
    setRange := SampleDatabase.changeChecked
    mset := SampleDatabase.changeChecked
    msetnx := SampleDatabase.changeChecked
    incr := SampleDatabase.changeChecked
    move := fun _ m _ => (m, some [79, 75]) }

/-- The file as the next append of the command log buffer will leave it: the file, or the
header `u64 0` when the file is still empty, followed by the command log buffer. -/
def Server.pendingFile {D : Type} (server : Server D) : List Nat :=
  (if server.file.isEmpty then u64le 0 else server.file) ++ server.manager.aofBuffer

/-- The invariant behind the round trip: no flush is under way, the databases are 0..15,
each in a state the contract knows, and the constructor rebuilds exactly these databases from
the file completed by the command log buffer. -/
def Recoverable {D : Type} (ops : DatabaseOps D) (valid : Nat → D → Prop)
    (server : Server D) : Prop :=
  server.manager.writeBuffer = [] ∧
  server.manager.databases.map Prod.fst = List.range 16 ∧
  (∀ e ∈ server.manager.databases, valid e.1 e.2) ∧
  ∃ r, DatabaseManager.construct ops (some server.pendingFile) = some (.ok r) ∧
    r.databases = server.manager.databases

/-! ## Helper lemmas -/

theorem foldl_serialize_eq {D : Type} (f : D → List Nat) (m : Databases D) (acc : List Nat) :
    m.foldl (fun serialization entry => serialization ++ f entry.2) acc
      = acc ++ (m.map fun entry => f entry.2).flatten := by
  induction m generalizing acc with
  | nil => simp
  | cons e rest ih => simp [ih, List.append_assoc]

/-- The snapshot is the count of databases followed by the serializations, in map order. -/
theorem serialize_eq {D : Type} (ops : DatabaseOps D) (s : DatabaseManager D) :
    serialize ops s
      = u64le s.databases.length ++ (s.databases.map fun e => ops.serialize e.2).flatten := by
  unfold serialize
  exact foldl_serialize_eq ops.serialize s.databases _

theorem u64le_length (n : Nat) : (u64le n).length = 8 := by
  simp [u64le]

/-- Reading back the eight bytes written for `n` gives `n` as an `unsigned long`. -/
theorem readU64_u64le (n : Nat) : readU64 (u64le n) = n % 2 ^ 64 := by
  simp [u64le, List.range, List.range.loop, readU64]
  omega

theorem take_u64le_append (n : Nat) (rest : List Nat) :
    (u64le n ++ rest).take 8 = u64le n := by
  have h := u64le_length n
  rw [List.take_append_of_le_length (by omega)]
  exact List.take_of_length_le (by omega)

theorem rolloverDue_iff (seconds writeCount : Nat) :
    rolloverDue seconds writeCount = true ↔
      (seconds ≥ 900 ∧ writeCount > 1) ∨ (seconds ≥ 300 ∧ writeCount > 10) ∨
        (seconds ≥ 60 ∧ writeCount > 10000) := by
  simp [rolloverDue, or_assoc]

theorem isEmpty_eq_false_of_ne_nil {α : Type} {l : List α} (h : l ≠ []) : l.isEmpty = false := by
  cases l with
  | nil => exact absurd rfl h
  | cons a t => rfl

/-- What `writable` does on an idle write buffer when a threshold is reached. -/
theorem writable_rollover {D : Type} (ops : DatabaseOps D) (fileSize : Nat)
    (s : DatabaseManager D) (hw : s.writeBuffer = [])
    (hr : rolloverDue (s.seconds + 1) s.writeCount = true) :
    writable ops fileSize s =
      ({ databases := s.databases, seconds := 0, writeCount := 0, aofBuffer := [],
         writeBuffer := u64le s.databases.length ++
           (s.databases.map fun e => ops.serialize e.2).flatten }, true) := by
  simp [writable, hw, hr, serialize_eq]

/-- What `writable` does on an idle write buffer when no threshold is reached and the command
log buffer holds records. -/
theorem writable_append {D : Type} (ops : DatabaseOps D) (fileSize : Nat)
    (s : DatabaseManager D) (hw : s.writeBuffer = [])
    (hr : rolloverDue (s.seconds + 1) s.writeCount = false) (ha : s.aofBuffer ≠ []) :
    writable ops fileSize s =
      ({ databases := s.databases, seconds := s.seconds + 1, writeCount := s.writeCount,
         aofBuffer := [],
         writeBuffer := if fileSize = 0 then u64le 0 ++ s.aofBuffer else s.aofBuffer },
       true) := by
  have he := isEmpty_eq_false_of_ne_nil ha
  by_cases hf : fileSize = 0 <;> simp [writable, hw, hr, he, hf]

/-- What `writable` does when there is nothing to flush, or a flush is under way: only the
tick. -/
theorem writable_idle {D : Type} (ops : DatabaseOps D) (fileSize : Nat)
    (s : DatabaseManager D)
    (h : s.writeBuffer ≠ [] ∨
      (rolloverDue (s.seconds + 1) s.writeCount = false ∧ s.aofBuffer = [])) :
    writable ops fileSize s = ({ s with seconds := s.seconds + 1 }, false) := by
  rcases h with h | ⟨hr, ha⟩
  · simp [writable, isEmpty_eq_false_of_ne_nil h]
  · by_cases hw : s.writeBuffer = []
    · simp [writable, hw, hr, ha]
    · simp [writable, isEmpty_eq_false_of_ne_nil hw]

theorem recorded_ok {D : Type} (s : DatabaseManager D) (id : Nat) (requestCopy : List Nat)
    (r : Reply D) (response : List Nat)
    (h : (recorded s id requestCopy r).response = .ok response) :
    (recorded s id requestCopy r).manager.aofBuffer
        = s.aofBuffer ++ u64le requestCopy.length ++ requestCopy ∧
      (recorded s id requestCopy r).manager.writeCount = s.writeCount + 1 := by
  unfold recorded at h ⊢
  rcases r with ⟨d, _ | resp⟩
  · simp at h
  · simp [record]

theorem movedAndRecorded_ok {D : Type} (s : DatabaseManager D) (requestCopy : List Nat)
    (r : Reply (Databases D)) (response : List Nat)
    (h : (movedAndRecorded s requestCopy r).response = .ok response) :
    (movedAndRecorded s requestCopy r).manager.aofBuffer
        = s.aofBuffer ++ u64le requestCopy.length ++ requestCopy ∧
      (movedAndRecorded s requestCopy r).manager.writeCount = s.writeCount + 1 := by
  unfold movedAndRecorded at h ⊢
  rcases r with ⟨d, _ | resp⟩
  · simp at h
  · simp [record]

/-- The arms that exist do record: a frame of a dispatched mutating command for an existing
database, answered with a response, is appended to the command log buffer as one record
and counted once. -/
theorem query_dispatched_records {D : Type} (ops : DatabaseOps D) (s : DatabaseManager D)
    (byte : Nat) (rest : List Nat) (command : Command) (database : D) (response : List Nat)
    (hcommand : Command.ofOrdinal byte = some command) (hmem : command ∈ dispatchedMutating)
    (hlen : 8 ≤ rest.length)
    (hfind : s.databases.find (readU64 (rest.take 8)) = some database)
    (hok : (query ops s (byte :: rest)).response = .ok response) :
    (query ops s (byte :: rest)).manager.aofBuffer
        = s.aofBuffer ++ u64le (byte :: rest).length ++ (byte :: rest) ∧
      (query ops s (byte :: rest)).manager.writeCount = s.writeCount + 1 := by
  have hnot : ¬ rest.length < 8 := by omega
  simp only [query, hnot, if_false, hfind, hcommand] at hok ⊢
  simp only [dispatchedMutating, List.mem_cons, List.mem_singleton, List.not_mem_nil,
    or_false] at hmem
  rcases hmem with h | h | h | h | h | h | h | h | h | h <;> subst h <;>
    simp only [dispatch] at hok ⊢ <;>
    first
      | exact recorded_ok _ _ _ _ _ hok
      | exact movedAndRecorded_ok _ _ _ _ hok

/-- The arms that are missing: a frame of a declared mutating command without an arm, for an
existing database, is answered with the empty response and changes nothing. -/
theorem query_undispatched_is_silent {D : Type} (ops : DatabaseOps D) (s : DatabaseManager D)
    (byte : Nat) (rest : List Nat) (command : Command) (database : D)
    (hcommand : Command.ofOrdinal byte = some command) (hmem : command ∈ undispatchedMutating)
    (hlen : 8 ≤ rest.length)
    (hfind : s.databases.find (readU64 (rest.take 8)) = some database) :
    query ops s (byte :: rest) = ⟨s, .ok []⟩ := by
  have hnot : ¬ rest.length < 8 := by omega
  simp only [query, hnot, if_false, hfind, hcommand]
  simp only [undispatchedMutating, List.mem_cons, List.mem_singleton, List.not_mem_nil,
    or_false] at hmem
  rcases hmem with h | h | h | h | h | h | h | h | h | h <;> subst h <;> rfl

theorem snapshot_isEmpty {D : Type} (ops : DatabaseOps D) (m : Databases D) :
    (u64le m.length ++ (m.map fun e => ops.serialize e.2).flatten).isEmpty = false := by
  simp [u64le, List.range, List.range.loop]

theorem ofOrdinal_eq_none_iff (byte : Nat) : Command.ofOrdinal byte = none ↔ 37 ≤ byte := by
  simp [Command.ofOrdinal, Command.declared, List.get?_eq_none]

theorem tryEmplace_of_find {D : Type} (m : Databases D) (id : Nat) (d database : D)
    (h : m.find id = some database) : m.tryEmplace id d = m := by
  simp [Databases.tryEmplace, h]

theorem unrecorded_not_outOfBounds {D : Type} (s : DatabaseManager D) (id : Nat) (r : Reply D) :
    (unrecorded s id r).response ≠ .error .outOfBounds := by
  rcases r with ⟨d, _ | resp⟩ <;> simp [unrecorded]

theorem recorded_not_outOfBounds {D : Type} (s : DatabaseManager D) (id : Nat)
    (requestCopy : List Nat) (r : Reply D) :
    (recorded s id requestCopy r).response ≠ .error .outOfBounds := by
  rcases r with ⟨d, _ | resp⟩ <;> simp [recorded]

theorem movedAndRecorded_not_outOfBounds {D : Type} (s : DatabaseManager D)
    (requestCopy : List Nat) (r : Reply (Databases D)) :
    (movedAndRecorded s requestCopy r).response ≠ .error .outOfBounds := by
  rcases r with ⟨d, _ | resp⟩ <;> simp [movedAndRecorded]

/-- No arm of the switch reads outside the request. -/
theorem dispatch_not_outOfBounds {D : Type} (ops : DatabaseOps D) (s : DatabaseManager D)
    (command : Option Command) (id : Nat) (database : D) (statement requestCopy : List Nat) :
    (dispatch ops s command id database statement requestCopy).response
      ≠ .error .outOfBounds := by
  rcases command with _ | c
  · simp [dispatch]
  · cases c <;>
      first
        | exact unrecorded_not_outOfBounds _ _ _
        | exact recorded_not_outOfBounds _ _ _ _
        | exact movedAndRecorded_not_outOfBounds _ _ _
        | simp [dispatch]

/-- On a frame of at least nine bytes `query` is the lookup of the id followed by the
switch. -/
theorem query_cons {D : Type} (ops : DatabaseOps D) (s : DatabaseManager D) (byte : Nat)
    (rest : List Nat) (hlen : 8 ≤ rest.length) :
    query ops s (byte :: rest) =
      match s.databases.find (readU64 (rest.take 8)) with
      | none => ⟨s, .error .outOfRange⟩
      | some database =>
        dispatch ops s (Command.ofOrdinal byte) (readU64 (rest.take 8)) database
          (rest.drop 8) (byte :: rest) := by
  have hnot : ¬ rest.length < 8 := by omega
  simp only [query, hnot, if_false]

/-- The arm of `Command::select` on an id that is a key of the map: the answer is `OK` and the
manager is as before. -/
theorem query_select_present {D : Type} (ops : DatabaseOps D) (s : DatabaseManager D)
    (rest : List Nat) (database : D) (hlen : 8 ≤ rest.length)
    (hfind : s.databases.find (readU64 (rest.take 8)) = some database) :
    query ops s (0 :: rest) = ⟨s, .ok [79, 75]⟩ := by
  rw [query_cons ops s 0 rest hlen]
  simp [hfind, Command.ofOrdinal, Command.declared, dispatch, select,
    tryEmplace_of_find _ _ _ _ hfind]

theorem rolloverDue_false_of_le {a b writeCount : Nat} (hle : b ≤ a)
    (h : rolloverDue a writeCount = false) : rolloverDue b writeCount = false := by
  cases hb : rolloverDue b writeCount with
  | false => rfl
  | true =>
    have h1 := (rolloverDue_iff b writeCount).mp hb
    have h2 : rolloverDue a writeCount = true := by
      rw [rolloverDue_iff]
      omega
    rw [h] at h2
    exact absurd h2 (by decide)

/-- Ticks with nothing to flush and no threshold in reach: every call returns false and only
`seconds` moves. -/
theorem ticks_idle {D : Type} (ops : DatabaseOps D) (sizes : List Nat) (s : DatabaseManager D)
    (hw : s.writeBuffer = []) (ha : s.aofBuffer = [])
    (hr : rolloverDue (s.seconds + sizes.length) s.writeCount = false) :
    ticks ops sizes s =
      ({ s with seconds := s.seconds + sizes.length }, List.replicate sizes.length false) := by
  induction sizes generalizing s with
  | nil => rfl
  | cons fileSize sizes ih =>
    have hr1 : rolloverDue (s.seconds + 1) s.writeCount = false :=
      rolloverDue_false_of_le (by simp only [List.length_cons]; omega) hr
    have hstep := writable_idle ops fileSize s (Or.inr ⟨hr1, ha⟩)
    have hr2 : rolloverDue (s.seconds + 1 + sizes.length) s.writeCount = false := by
      rw [← hr]
      congr 1
      simp only [List.length_cons]
      omega
    have ih' := ih { s with seconds := s.seconds + 1 } hw ha hr2
    simp only [ticks, hstep, ih', List.length_cons, List.replicate_succ]
    congr 2
    omega

/-- Ticks while a flush is under way: every call returns false and only `seconds` moves. -/
theorem ticks_busy {D : Type} (ops : DatabaseOps D) (sizes : List Nat) (s : DatabaseManager D)
    (hw : s.writeBuffer ≠ []) :
    ticks ops sizes s =
      ({ s with seconds := s.seconds + sizes.length }, List.replicate sizes.length false) := by
  induction sizes generalizing s with
  | nil => rfl
  | cons fileSize sizes ih =>
    have hstep := writable_idle ops fileSize s (Or.inl hw)
    have ih' := ih { s with seconds := s.seconds + 1 } hw
    simp only [ticks, hstep, ih', List.length_cons, List.replicate_succ]
    congr 2
    omega

/-- Whenever `writable` returns true the command log buffer is empty afterwards, and the write
buffer is not. -/
theorem writable_true {D : Type} (ops : DatabaseOps D) (fileSize : Nat) (s : DatabaseManager D)
    (htrue : (writable ops fileSize s).2 = true) :
    (writable ops fileSize s).1.aofBuffer = [] ∧ (writable ops fileSize s).1.writeBuffer ≠ [] ∧
      s.writeBuffer = [] := by
  by_cases hw : s.writeBuffer = []
  · by_cases hr : rolloverDue (s.seconds + 1) s.writeCount = true
    · rw [writable_rollover ops fileSize s hw hr]
      refine ⟨rfl, ?_, hw⟩
      intro h
      have := snapshot_isEmpty ops s.databases
      simp only [] at h
      rw [h] at this
      exact absurd this (by decide)
    · have hr' : rolloverDue (s.seconds + 1) s.writeCount = false := by simpa using hr
      by_cases ha : s.aofBuffer = []
      · rw [writable_idle ops fileSize s (Or.inr ⟨hr', ha⟩)] at htrue
        simp at htrue
      · rw [writable_append ops fileSize s hw hr' ha]
        refine ⟨rfl, ?_, hw⟩
        by_cases hf : fileSize = 0 <;> simp [hf, ha]
  · rw [writable_idle ops fileSize s (Or.inl hw)] at htrue
    simp at htrue

theorem drop_u64le_append (n : Nat) (rest : List Nat) : (u64le n ++ rest).drop 8 = rest := by
  have h := u64le_length n
  rw [List.drop_append_of_le_length (by omega), List.drop_of_length_le (by omega)]
  rfl

theorem u64le_append_eq_cons (n : Nat) (rest : List Nat) :
    ∃ b bs, u64le n ++ rest = b :: bs := by
  refine ⟨n / 256 ^ 0 % 256, (u64le n ++ rest).tail, ?_⟩
  simp [u64le, List.range, List.range.loop]

/-- One round of the replay loop on a request that follows its length. -/
theorem forEachRequest_record {σ : Type} (step : σ → List Nat → Except Failure σ) (fuel : Nat)
    (s : σ) (request rest : List Nat) (hlength : request.length < 2 ^ 64) :
    forEachRequest step (fuel + 1) s (u64le request.length ++ (request ++ rest)) =
      match step s request with
      | .ok s => forEachRequest step fuel s rest
      | .error failure => some (.error failure) := by
  obtain ⟨b, bs, hb⟩ := u64le_append_eq_cons request.length (request ++ rest)
  have hlen : ¬ (b :: bs).length < 8 := by
    rw [← hb, List.length_append, u64le_length]
    omega
  have hsize : readU64 ((b :: bs).take 8) = request.length := by
    rw [← hb, take_u64le_append, readU64_u64le]
    exact Nat.mod_eq_of_lt hlength
  have hdrop : (b :: bs).drop 8 = request ++ rest := by
    rw [← hb, drop_u64le_append]
  rw [hb]
  simp only [forEachRequest, hlen, if_false, hsize, hdrop, List.length_append,
    List.take_left', List.drop_left']
  have hnot : ¬ request.length + rest.length < request.length := by omega
  simp only [hnot, if_false]

theorem encodeRequests_cons (request : List Nat) (requests : List (List Nat)) :
    encodeRequests (request :: requests) =
      u64le request.length ++ (request ++ encodeRequests requests) := by
  simp [encodeRequests]

theorem encodeRequests_append (xs ys : List (List Nat)) :
    encodeRequests (xs ++ ys) = encodeRequests xs ++ encodeRequests ys := by
  simp [encodeRequests]

/-- The replay loop on a command log: the requests reach `step` one by one, in order, until
one of them fails. -/
theorem forEachRequest_encodeRequests {σ : Type} (step : σ → List Nat → Except Failure σ)
    (requests : List (List Nat)) (fuel : Nat) (s : σ)
    (hfuel : (encodeRequests requests).length ≤ fuel)
    (hlength : ∀ request ∈ requests, request.length < 2 ^ 64) :
    forEachRequest step fuel s (encodeRequests requests) = some (requests.foldlM step s) := by
  induction requests generalizing fuel s with
  | nil => cases fuel <;> rfl
  | cons request requests ih =>
    rw [encodeRequests_cons] at hfuel ⊢
    simp only [List.length_append, u64le_length] at hfuel
    obtain ⟨fuel, rfl⟩ : ∃ k, fuel = k + 1 := ⟨fuel - 1, by omega⟩
    rw [forEachRequest_record step fuel s request _ (hlength request (List.mem_cons_self _ _))]
    rw [List.foldlM_cons]
    cases hstep : step s request with
    | error failure => rfl
    | ok s1 =>
      exact ih fuel s1 (by omega) (fun r hr => hlength r (List.mem_cons_of_mem _ hr))

theorem foldl_record {D : Type} (s : DatabaseManager D) (requests : List (List Nat)) :
    requests.foldl record s =
      { s with aofBuffer := s.aofBuffer ++ encodeRequests requests,
               writeCount := s.writeCount + requests.length } := by
  induction requests generalizing s with
  | nil => simp [encodeRequests]
  | cons request requests ih =>
    rw [List.foldl_cons, ih, encodeRequests_cons]
    simp [record, List.append_assoc, Nat.add_assoc, Nat.add_comm 1]

theorem unrecorded_keeps_log {D : Type} (s : DatabaseManager D) (id : Nat) (r : Reply D) :
    (unrecorded s id r).manager.aofBuffer = s.aofBuffer ∧
    (unrecorded s id r).manager.writeCount = s.writeCount ∧
    (unrecorded s id r).manager.seconds = s.seconds ∧
    (unrecorded s id r).manager.writeBuffer = s.writeBuffer := by
  rcases r with ⟨d, _ | response⟩ <;> simp [unrecorded]

/-- Fuel equal to the length of the data is enough for the replay loop: every round takes at
least eight bytes. -/
theorem forEachRequest_total {σ : Type} (step : σ → List Nat → Except Failure σ) (fuel : Nat)
    (s : σ) (data : List Nat) (hfuel : data.length ≤ fuel) :
    forEachRequest step fuel s data ≠ none := by
  induction fuel generalizing s data with
  | zero =>
    cases data with
    | nil => simp [forEachRequest]
    | cons b bs => simp at hfuel
  | succ fuel ih =>
    cases data with
    | nil => simp [forEachRequest]
    | cons b bs =>
      simp only [forEachRequest]
      split
      · simp
      · split
        · simp
        · split
          · apply ih
            simp only [List.length_drop, List.length_cons] at hfuel ⊢
            omega
          · simp

/-- A replay loop that comes to an end without a failure has read a command log. -/
theorem forEachRequest_ok_isCommandLog {σ : Type} (step : σ → List Nat → Except Failure σ)
    (fuel : Nat) (s result : σ) (data : List Nat)
    (h : forEachRequest step fuel s data = some (.ok result)) : IsCommandLog data := by
  induction fuel generalizing s data with
  | zero =>
    cases data with
    | nil => exact IsCommandLog.empty
    | cons b bs => simp [forEachRequest] at h
  | succ fuel ih =>
    cases data with
    | nil => exact IsCommandLog.empty
    | cons b bs =>
      simp only [forEachRequest] at h
      split at h
      · simp at h
      · rename_i h8
        split at h
        · simp at h
        · rename_i hsize
          split at h
          · rename_i s1 hstep
            have hrest := ih s1 _ h
            have hsplit : b :: bs =
                (b :: bs).take 8 ++ (((b :: bs).drop 8).take (readU64 ((b :: bs).take 8)) ++
                  ((b :: bs).drop 8).drop (readU64 ((b :: bs).take 8))) := by
              rw [List.take_append_drop, List.take_append_drop]
            rw [hsplit]
            refine IsCommandLog.request _ _ _ ?_ ?_ hrest
            · rw [List.length_take]
              omega
            · rw [List.length_take]
              omega
          · simp at h

/-- A loop over the `db_record`s that comes to an end without a failure, leaving a command
log, has read `count` records. -/
theorem loadDatabases_ok_isSnapshotBody {D : Type} (ops : DatabaseOps D) (count : Nat)
    (databases result : Databases D) (data rest : List Nat)
    (h : loadDatabases ops count databases data = .ok (result, rest))
    (hrest : IsCommandLog rest) : IsSnapshotBody count data := by
  induction count generalizing databases data with
  | zero =>
    simp only [loadDatabases, Except.ok.injEq, Prod.mk.injEq] at h
    rw [h.2]
    exact IsSnapshotBody.log _ hrest
  | succ count ih =>
    simp only [loadDatabases] at h
    split at h
    · simp at h
    · rename_i h8
      split at h
      · simp at h
      · rename_i h16
        split at h
        · simp at h
        · rename_i hsize
          have hbody := ih _ _ h
          have hsplit : data =
              data.take 8 ++ ((data.drop 8).take 8 ++
                (((data.drop 8).drop 8).take (readU64 ((data.drop 8).take 8)) ++
                  ((data.drop 8).drop 8).drop (readU64 ((data.drop 8).take 8)))) := by
            rw [List.take_append_drop, List.take_append_drop, List.take_append_drop]
          rw [hsplit]
          refine IsSnapshotBody.record _ _ _ _ _ ?_ ?_ ?_ hbody
          · rw [List.length_take]
            omega
          · rw [List.length_take]
            omega
          · rw [List.length_take]
            omega

/-- The constructor always comes to an end in the model: with a manager or with a failure. -/
theorem construct_total {D : Type} (ops : DatabaseOps D) (file : Option (List Nat)) :
    DatabaseManager.construct ops file ≠ none := by
  unfold DatabaseManager.construct
  split
  · simp
  · split
    · simp
    · split
      · simp
      · split
        · simp
        · exact forEachRequest_total _ _ _ _ (Nat.le_refl _)

/-- A file from which the constructor builds a manager, all reads inside the buffer, is empty
or follows the grammar of the log file. -/
theorem construct_ok_isLogFile {D : Type} (ops : DatabaseOps D) (file : List Nat)
    (s : DatabaseManager D) (hne : file ≠ [])
    (h : DatabaseManager.construct ops (some file) = some (.ok s)) : IsLogFile file := by
  simp only [DatabaseManager.construct, isEmpty_eq_false_of_ne_nil hne, Bool.false_eq_true,
    if_false] at h
  split at h
  · simp at h
  · rename_i h8
    split at h
    · simp at h
    · rename_i databases data hload
      refine ⟨by omega, ?_⟩
      exact loadDatabases_ok_isSnapshotBody ops _ _ _ _ _ hload
        (forEachRequest_ok_isCommandLog _ _ _ _ _ h)

/-- A request that `query` answers has at least nine bytes and names an existing database. -/
theorem query_ok_inv {D : Type} (ops : DatabaseOps D) (s : DatabaseManager D)
    (request response : List Nat) (h : (query ops s request).response = .ok response) :
    ∃ byte rest database, request = byte :: rest ∧ 8 ≤ rest.length ∧
      s.databases.find (readU64 (rest.take 8)) = some database := by
  cases request with
  | nil => simp [query] at h
  | cons byte rest =>
    by_cases hlt : rest.length < 8
    · simp [query, hlt] at h
    · cases hfind : s.databases.find (readU64 (rest.take 8)) with
      | none =>
        rw [query_cons ops s byte rest (by omega)] at h
        simp [hfind] at h
      | some database => exact ⟨byte, rest, database, rfl, by omega, hfind⟩

theorem replayStep_ok {D : Type} (ops : DatabaseOps D) (s result : DatabaseManager D)
    (request : List Nat) (h : replayStep ops s request = .ok result) :
    result = (query ops s request).manager ∧
      ∃ response, (query ops s request).response = .ok response := by
  unfold replayStep at h
  split at h
  · rename_i response hresponse
    simp only [Except.ok.injEq] at h
    exact ⟨h.symm, response, hresponse⟩
  · simp at h

/-- A replayed frame of a dispatched mutating command is recorded once more. -/
theorem replayStep_records {D : Type} (ops : DatabaseOps D) (s result : DatabaseManager D)
    (request : List Nat) (command : Command) (hcommand : commandOf request = some command)
    (hmem : command ∈ dispatchedMutating) (h : replayStep ops s request = .ok result) :
    result.aofBuffer = s.aofBuffer ++ u64le request.length ++ request ∧
      result.writeCount = s.writeCount + 1 := by
  obtain ⟨hresult, response, hresponse⟩ := replayStep_ok ops s result request h
  obtain ⟨byte, rest, database, rfl, hlen, hfind⟩ := query_ok_inv ops s request response hresponse
  rw [hresult]
  exact query_dispatched_records ops s byte rest command database response hcommand hmem hlen
    hfind hresponse

theorem foldlM_replayStep_records {D : Type} (ops : DatabaseOps D)
    (requests : List (List Nat)) (s result : DatabaseManager D)
    (hcommand : ∀ request ∈ requests, ∃ command, commandOf request = some command ∧
      command ∈ dispatchedMutating)
    (h : requests.foldlM (replayStep ops) s = .ok result) :
    result.aofBuffer = s.aofBuffer ++ encodeRequests requests ∧
      result.writeCount = s.writeCount + requests.length := by
  induction requests generalizing s with
  | nil =>
    simp only [List.foldlM_nil, pure, Except.pure, Except.ok.injEq] at h
    subst h
    simp [encodeRequests]
  | cons request requests ih =>
    rw [List.foldlM_cons] at h
    cases hstep : replayStep ops s request with
    | error failure => simp [hstep, bind, Except.bind] at h
    | ok s1 =>
      simp only [hstep, bind, Except.bind] at h
      obtain ⟨command, hc, hmem⟩ := hcommand request (List.mem_cons_self _ _)
      have h1 := replayStep_records ops s s1 request command hc hmem hstep
      have h2 := ih s1 (fun r hr => hcommand r (List.mem_cons_of_mem _ hr)) h
      rw [h2.1, h2.2, h1.1, h1.2, encodeRequests_cons]
      simp only [List.append_assoc, List.length_cons]
      exact ⟨trivial, by omega⟩

/-- The constructor on a file that starts with the eight bytes of `count`. -/
theorem construct_header {D : Type} (ops : DatabaseOps D) (count : Nat) (data : List Nat)
    (hcount : count < 2 ^ 64) :
    DatabaseManager.construct ops (some (u64le count ++ data)) =
      match loadDatabases ops count (DatabaseManager.initial ops).databases data with
      | .error failure => some (.error failure)
      | .ok (databases, rest) =>
        forEachRequest (replayStep ops) rest.length
          { DatabaseManager.initial ops with databases := databases } rest := by
  obtain ⟨b, bs, hb⟩ := u64le_append_eq_cons count data
  have hlen : ¬ (u64le count ++ data).length < 8 := by
    rw [List.length_append, u64le_length]
    omega
  have hempty : (u64le count ++ data).isEmpty = false := by rw [hb]; rfl
  simp only [DatabaseManager.construct, hempty, Bool.false_eq_true, if_false, hlen,
    take_u64le_append, drop_u64le_append, readU64_u64le, Nat.mod_eq_of_lt hcount]

/-- The re-recording of replay, for the arms that exist: when the file is the header `u64 0`
followed by length-prefixed frames of dispatched mutating commands and the constructor
succeeds, the command log buffer equals that tail and `writeCount` is the number of frames. -/
theorem construct_replay_records {D : Type} (ops : DatabaseOps D)
    (requests : List (List Nat)) (s : DatabaseManager D)
    (hlength : ∀ request ∈ requests, request.length < 2 ^ 64)
    (hcommand : ∀ request ∈ requests, ∃ command, commandOf request = some command ∧
      command ∈ dispatchedMutating)
    (h : DatabaseManager.construct ops (some (u64le 0 ++ encodeRequests requests))
      = some (.ok s)) :
    s.aofBuffer = encodeRequests requests ∧ s.writeCount = requests.length := by
  rw [construct_header ops 0 _ (by decide)] at h
  simp only [loadDatabases] at h
  rw [forEachRequest_encodeRequests _ requests _ _ (Nat.le_refl _) hlength] at h
  simp only [Option.some.injEq] at h
  have := foldlM_replayStep_records ops requests _ s hcommand h
  simpa [DatabaseManager.initial] using this

theorem initial_databases {D : Type} (ops : DatabaseOps D) :
    (DatabaseManager.initial ops).databases = (List.range 16).map fun i => (i, ops.create i []) := by
  simp [DatabaseManager.initial, List.range, List.range.loop, Databases.tryEmplace,
    Databases.find]

theorem initial_find_zero {D : Type} (ops : DatabaseOps D) :
    (DatabaseManager.initial ops).databases.find 0 = some (ops.create 0 []) := by
  rw [initial_databases]
  simp [List.range, List.range.loop, Databases.find]

theorem recorded_keeps_clock {D : Type} (s : DatabaseManager D) (id : Nat)
    (requestCopy : List Nat) (r : Reply D) :
    (recorded s id requestCopy r).manager.seconds = s.seconds ∧
      (recorded s id requestCopy r).manager.writeBuffer = s.writeBuffer := by
  rcases r with ⟨d, _ | response⟩ <;> simp [recorded, record]

theorem movedAndRecorded_keeps_clock {D : Type} (s : DatabaseManager D)
    (requestCopy : List Nat) (r : Reply (Databases D)) :
    (movedAndRecorded s requestCopy r).manager.seconds = s.seconds ∧
      (movedAndRecorded s requestCopy r).manager.writeBuffer = s.writeBuffer := by
  rcases r with ⟨d, _ | response⟩ <;> simp [movedAndRecorded, record]

/-- No call of `query` touches `seconds` or the write buffer. -/
theorem query_keeps_clock {D : Type} (ops : DatabaseOps D) (s : DatabaseManager D)
    (request : List Nat) :
    (query ops s request).manager.seconds = s.seconds ∧
      (query ops s request).manager.writeBuffer = s.writeBuffer := by
  cases request with
  | nil => exact ⟨rfl, rfl⟩
  | cons byte rest =>
    by_cases hlt : rest.length < 8
    · simp [query, hlt]
    · rw [query_cons ops s byte rest (by omega)]
      cases hfind : s.databases.find (readU64 (rest.take 8)) with
      | none => exact ⟨rfl, rfl⟩
      | some database =>
        simp only []
        rcases hc : Command.ofOrdinal byte with _ | c
        · exact ⟨rfl, rfl⟩
        · cases c <;>
            first
              | exact ⟨(unrecorded_keeps_log _ _ _).2.2.1, (unrecorded_keeps_log _ _ _).2.2.2⟩
              | exact recorded_keeps_clock _ _ _ _
              | exact movedAndRecorded_keeps_clock _ _ _
              | exact ⟨rfl, rfl⟩

/-! ### The database map -/

theorem find_eq_none_iff {D : Type} (m : Databases D) (id : Nat) :
    m.find id = none ↔ id ∉ m.map Prod.fst := by
  induction m with
  | nil => simp [Databases.find]
  | cons e rest ih =>
    obtain ⟨k, d⟩ := e
    by_cases hk : k = id
    · simp [Databases.find, hk]
    · simp only [Databases.find, hk, if_false, ih, List.map_cons, List.mem_cons, not_or]
      exact ⟨fun h => ⟨fun h' => hk h'.symm, h⟩, fun h => h.2⟩

theorem keys_assign {D : Type} (m : Databases D) (id : Nat) (d : D) :
    (m.assign id d).map Prod.fst = m.map Prod.fst := by
  induction m with
  | nil => rfl
  | cons e rest ih =>
    obtain ⟨k, d0⟩ := e
    by_cases hk : k = id
    · simp [Databases.assign, hk]
    · simp [Databases.assign, hk, ih]

theorem find_assign_self {D : Type} (m : Databases D) (id : Nat) (d : D)
    (hmem : id ∈ m.map Prod.fst) : (m.assign id d).find id = some d := by
  induction m with
  | nil => simp at hmem
  | cons e rest ih =>
    obtain ⟨k, d0⟩ := e
    by_cases hk : k = id
    · simp [Databases.assign, Databases.find, hk]
    · simp only [List.map_cons, List.mem_cons] at hmem
      have hrest : id ∈ rest.map Prod.fst := by
        rcases hmem with h | h
        · exact absurd h.symm hk
        · exact h
      simp [Databases.assign, Databases.find, hk, ih hrest]

theorem find_append_new {D : Type} (m : Databases D) (id : Nat) (d : D)
    (hnew : id ∉ m.map Prod.fst) : (m ++ [(id, d)]).find id = some d := by
  induction m with
  | nil => simp [Databases.find]
  | cons e rest ih =>
    obtain ⟨k, d0⟩ := e
    simp only [List.map_cons, List.mem_cons, not_or] at hnew
    have hk : ¬ k = id := fun h => hnew.1 h.symm
    simp [Databases.find, hk, ih hnew.2]

/-- The branch of the constructor on `databases.find(id)` is what the specification says
about a `db_record`. -/
theorem applyRecord_eq {D : Type} (ops : DatabaseOps D) (m : Databases D) (id : Nat)
    (body : List Nat) :
    (match m.find id with
      | some _ => m.assign id (ops.create id body)
      | none => m.tryEmplace id (ops.create id body)) = applyRecord ops m (id, body) := by
  cases hfind : m.find id with
  | none =>
    have hnew := (find_eq_none_iff m id).mp hfind
    simp [applyRecord, hnew, Databases.tryEmplace, hfind]
  | some d =>
    have hold : id ∈ m.map Prod.fst := by
      by_contra hnot
      rw [(find_eq_none_iff m id).mpr hnot] at hfind
      exact absurd hfind (by simp)
    simp [applyRecord, hold]

theorem applyRecord_find {D : Type} (ops : DatabaseOps D) (m : Databases D) (id : Nat)
    (body : List Nat) : (applyRecord ops m (id, body)).find id = some (ops.create id body) := by
  by_cases hmem : id ∈ m.map Prod.fst
  · simp only [applyRecord, hmem, if_true]
    exact find_assign_self m id _ hmem
  · simp only [applyRecord, hmem, if_false]
    exact find_append_new m id _ hmem

theorem applyRecord_keys {D : Type} (ops : DatabaseOps D) (m : Databases D)
    (r : Nat × List Nat) (id : Nat) :
    id ∈ (applyRecord ops m r).map Prod.fst ↔ id ∈ m.map Prod.fst ∨ id = r.1 := by
  by_cases hmem : r.1 ∈ m.map Prod.fst
  · simp only [applyRecord, hmem, if_true, keys_assign]
    constructor
    · exact Or.inl
    · rintro (h | h)
      · exact h
      · rw [h]; exact hmem
  · simp only [applyRecord, hmem, if_false, List.map_append, List.mem_append, List.map_cons,
      List.map_nil, List.mem_singleton]

theorem foldl_applyRecord_keys {D : Type} (ops : DatabaseOps D)
    (records : List (Nat × List Nat)) (m : Databases D) (id : Nat) :
    id ∈ (records.foldl (applyRecord ops) m).map Prod.fst ↔
      id ∈ m.map Prod.fst ∨ id ∈ records.map Prod.fst := by
  induction records generalizing m with
  | nil => simp
  | cons r records ih =>
    rw [List.foldl_cons, ih, applyRecord_keys]
    simp only [List.map_cons, List.mem_cons]
    tauto

theorem initial_keys {D : Type} (ops : DatabaseOps D) :
    (DatabaseManager.initial ops).databases.map Prod.fst = List.range 16 := by
  rw [initial_databases]
  simp [List.range, List.range.loop]

theorem encodeRecords_cons (r : Nat × List Nat) (records : List (Nat × List Nat)) :
    encodeRecords (r :: records) =
      u64le r.1 ++ (u64le r.2.length ++ (r.2 ++ encodeRecords records)) := by
  simp [encodeRecords]

/-- One round of the loop over the `db_record`s on a record that follows the format. -/
theorem loadDatabases_record {D : Type} (ops : DatabaseOps D) (count : Nat) (m : Databases D)
    (id : Nat) (body rest : List Nat) (hid : id < 2 ^ 64) (hbody : body.length < 2 ^ 64) :
    loadDatabases ops (count + 1) m (u64le id ++ (u64le body.length ++ (body ++ rest))) =
      loadDatabases ops count (applyRecord ops m (id, body)) rest := by
  have h1 : ¬ (u64le id ++ (u64le body.length ++ (body ++ rest))).length < 8 := by
    rw [List.length_append, u64le_length]
    omega
  have h2 : ¬ (u64le body.length ++ (body ++ rest)).length < 8 := by
    rw [List.length_append, u64le_length]
    omega
  have h3 : ¬ (body ++ rest).length < body.length := by
    rw [List.length_append]
    omega
  simp only [loadDatabases, h1, if_false, take_u64le_append, drop_u64le_append, readU64_u64le,
    Nat.mod_eq_of_lt hid, Nat.mod_eq_of_lt hbody, h2, h3, List.take_left', List.drop_left',
    applyRecord_eq]

/-- The loop over the `db_record`s on well-formed records: each record is applied, in file
order, and the bytes behind the last record are left. -/
theorem loadDatabases_encodeRecords {D : Type} (ops : DatabaseOps D)
    (records : List (Nat × List Nat)) (m : Databases D) (tail : List Nat)
    (hbound : ∀ r ∈ records, r.1 < 2 ^ 64 ∧ r.2.length < 2 ^ 64) :
    loadDatabases ops records.length m (encodeRecords records ++ tail) =
      .ok (records.foldl (applyRecord ops) m, tail) := by
  induction records generalizing m with
  | nil => simp [encodeRecords, loadDatabases]
  | cons r records ih =>
    obtain ⟨id, body⟩ := r
    have hr := hbound (id, body) (List.mem_cons_self _ _)
    rw [encodeRecords_cons, List.length_cons]
    simp only [List.append_assoc]
    rw [loadDatabases_record ops _ m id body _ hr.1 hr.2, List.foldl_cons]
    exact ih _ (fun r hr => hbound r (List.mem_cons_of_mem _ hr))

theorem unrecorded_databases {D : Type} (s : DatabaseManager D) (id : Nat) (r : Reply D) :
    (unrecorded s id r).manager.databases = s.databases.assign id r.1 := by
  rcases r with ⟨d, _ | response⟩ <;> rfl

theorem recorded_databases {D : Type} (s : DatabaseManager D) (id : Nat)
    (requestCopy : List Nat) (r : Reply D) :
    (recorded s id requestCopy r).manager.databases = s.databases.assign id r.1 := by
  rcases r with ⟨d, _ | response⟩ <;> rfl

theorem movedAndRecorded_databases {D : Type} (s : DatabaseManager D)
    (requestCopy : List Nat) (r : Reply (Databases D)) :
    (movedAndRecorded s requestCopy r).manager.databases = r.1 := by
  rcases r with ⟨d, _ | response⟩ <;> rfl

/-- When `Database::move` keeps the ids of the map, no call of `query` changes them. -/
theorem query_keys {D : Type} (ops : DatabaseOps D)
    (hmove : ∀ id (m : Databases D) statement,
      ((ops.move id m statement).1).map Prod.fst = m.map Prod.fst)
    (s : DatabaseManager D) (request : List Nat) :
    (query ops s request).manager.databases.map Prod.fst = s.databases.map Prod.fst := by
  cases request with
  | nil => rfl
  | cons byte rest =>
    by_cases hlt : rest.length < 8
    · simp [query, hlt]
    · rw [query_cons ops s byte rest (by omega)]
      cases hfind : s.databases.find (readU64 (rest.take 8)) with
      | none => rfl
      | some database =>
        simp only []
        rcases hc : Command.ofOrdinal byte with _ | c
        · rfl
        · cases c <;>
            simp only [dispatch, unrecorded_databases, recorded_databases,
              movedAndRecorded_databases, keys_assign, hmove, select,
              tryEmplace_of_find _ _ _ _ hfind]

/-- A property that every successful round keeps holds at the end of the replay loop. -/
theorem forEachRequest_invariant {σ : Type} (step : σ → List Nat → Except Failure σ)
    (P : σ → Prop) (hstep : ∀ s request result, P s → step s request = .ok result → P result)
    (fuel : Nat) (s result : σ) (data : List Nat) (hs : P s)
    (h : forEachRequest step fuel s data = some (.ok result)) : P result := by
  induction fuel generalizing s data with
  | zero =>
    cases data with
    | nil =>
      simp only [forEachRequest, Option.some.injEq, Except.ok.injEq] at h
      exact h ▸ hs
    | cons b bs => simp [forEachRequest] at h
  | succ fuel ih =>
    cases data with
    | nil =>
      simp only [forEachRequest, Option.some.injEq, Except.ok.injEq] at h
      exact h ▸ hs
    | cons b bs =>
      simp only [forEachRequest] at h
      split at h
      · simp at h
      · split at h
        · simp at h
        · split at h
          · rename_i s1 hs1
            exact ih s1 _ (hstep _ _ _ hs hs1) h
          · simp at h

/-! ### The command log buffer along a run -/

theorem readU64_lt (bytes : List Nat) (hbytes : ∀ b ∈ bytes, b < 256) :
    readU64 bytes < 256 ^ bytes.length := by
  induction bytes with
  | nil => simp [readU64]
  | cons b bs ih =>
    have hb : b < 256 := hbytes b (List.mem_cons_self _ _)
    have hrest := ih (fun x hx => hbytes x (List.mem_cons_of_mem _ hx))
    simp only [readU64, List.length_cons, pow_succ]
    omega

theorem readU64_take_lt (data : List Nat) (hbytes : ∀ b ∈ data, b < 256) :
    readU64 (data.take 8) < 2 ^ 64 := by
  have h := readU64_lt (data.take 8) (fun b hb => hbytes b (List.mem_of_mem_take hb))
  have hlen : (data.take 8).length ≤ 8 := by
    rw [List.length_take]
    omega
  calc readU64 (data.take 8) < 256 ^ (data.take 8).length := h
    _ ≤ 256 ^ 8 := Nat.pow_le_pow_right (by decide) hlen
    _ = 2 ^ 64 := by norm_num

/-- The replay loop on a buffer of bytes: a property kept by every successful round on a
request shorter than 2^64 bytes holds at the end. -/
theorem forEachRequest_invariant_of_bytes {σ : Type} (step : σ → List Nat → Except Failure σ)
    (P : σ → Prop)
    (hstep : ∀ s request result, P s → request.length < 2 ^ 64 → step s request = .ok result →
      P result)
    (fuel : Nat) (s result : σ) (data : List Nat) (hbytes : ∀ b ∈ data, b < 256) (hs : P s)
    (h : forEachRequest step fuel s data = some (.ok result)) : P result := by
  induction fuel generalizing s data with
  | zero =>
    cases data with
    | nil =>
      simp only [forEachRequest, Option.some.injEq, Except.ok.injEq] at h
      exact h ▸ hs
    | cons b bs => simp [forEachRequest] at h
  | succ fuel ih =>
    cases data with
    | nil =>
      simp only [forEachRequest, Option.some.injEq, Except.ok.injEq] at h
      exact h ▸ hs
    | cons b bs =>
      simp only [forEachRequest] at h
      split at h
      · simp at h
      · split at h
        · simp at h
        · rename_i hsize
          split at h
          · rename_i s1 hs1
            have hlt := readU64_take_lt (b :: bs) hbytes
            have hreq : (((b :: bs).drop 8).take (readU64 ((b :: bs).take 8))).length
                < 2 ^ 64 := by
              rw [List.length_take]
              omega
            exact ih s1 _
              (fun x hx => hbytes x (List.mem_of_mem_drop (List.mem_of_mem_drop hx)))
              (hstep _ _ _ hs hreq hs1) h
          · simp at h

theorem isCommandLog_encodeRequests (requests : List (List Nat))
    (hlength : ∀ request ∈ requests, request.length < 2 ^ 64) :
    IsCommandLog (encodeRequests requests) := by
  induction requests with
  | nil => exact IsCommandLog.empty
  | cons request requests ih =>
    rw [encodeRequests_cons]
    refine IsCommandLog.request _ _ _ (u64le_length _) ?_
      (ih (fun r hr => hlength r (List.mem_cons_of_mem _ hr)))
    rw [readU64_u64le]
    exact Nat.mod_eq_of_lt (hlength request (List.mem_cons_self _ _))

theorem recorded_log_cases {D : Type} (s : DatabaseManager D) (id : Nat)
    (requestCopy : List Nat) (r : Reply D) :
    ((recorded s id requestCopy r).manager.aofBuffer = s.aofBuffer ∧
      (recorded s id requestCopy r).manager.writeCount = s.writeCount) ∨
    ((recorded s id requestCopy r).manager.aofBuffer
        = s.aofBuffer ++ u64le requestCopy.length ++ requestCopy ∧
      (recorded s id requestCopy r).manager.writeCount = s.writeCount + 1) := by
  rcases r with ⟨d, _ | response⟩
  · exact Or.inl ⟨rfl, rfl⟩
  · exact Or.inr ⟨rfl, rfl⟩

theorem movedAndRecorded_log_cases {D : Type} (s : DatabaseManager D)
    (requestCopy : List Nat) (r : Reply (Databases D)) :
    ((movedAndRecorded s requestCopy r).manager.aofBuffer = s.aofBuffer ∧
      (movedAndRecorded s requestCopy r).manager.writeCount = s.writeCount) ∨
    ((movedAndRecorded s requestCopy r).manager.aofBuffer
        = s.aofBuffer ++ u64le requestCopy.length ++ requestCopy ∧
      (movedAndRecorded s requestCopy r).manager.writeCount = s.writeCount + 1) := by
  rcases r with ⟨d, _ | response⟩
  · exact Or.inl ⟨rfl, rfl⟩
  · exact Or.inr ⟨rfl, rfl⟩

/-- A call of `query` leaves the command log buffer and `writeCount` alone, or appends the
one record of the request and counts it. -/
theorem query_log_cases {D : Type} (ops : DatabaseOps D) (s : DatabaseManager D)
    (request : List Nat) :
    ((query ops s request).manager.aofBuffer = s.aofBuffer ∧
      (query ops s request).manager.writeCount = s.writeCount) ∨
    ((query ops s request).manager.aofBuffer = s.aofBuffer ++ u64le request.length ++ request ∧
      (query ops s request).manager.writeCount = s.writeCount + 1) := by
  cases request with
  | nil => exact Or.inl ⟨rfl, rfl⟩
  | cons byte rest =>
    by_cases hlt : rest.length < 8
    · simp [query, hlt]
    · rw [query_cons ops s byte rest (by omega)]
      cases hfind : s.databases.find (readU64 (rest.take 8)) with
      | none => exact Or.inl ⟨rfl, rfl⟩
      | some database =>
        simp only []
        rcases hc : Command.ofOrdinal byte with _ | c
        · exact Or.inl ⟨rfl, rfl⟩
        · cases c <;>
            first
              | exact Or.inl ⟨(unrecorded_keeps_log _ _ _).1, (unrecorded_keeps_log _ _ _).2.1⟩
              | exact recorded_log_cases _ _ _ _
              | exact movedAndRecorded_log_cases _ _ _
              | exact Or.inl ⟨rfl, rfl⟩

/-- The invariant of the command log buffer is kept by `query`. -/
theorem query_keeps_log_invariant {D : Type} (ops : DatabaseOps D) (s : DatabaseManager D)
    (request : List Nat) (hlength : request.length < 2 ^ 64)
    (h : ∃ requests : List (List Nat), (∀ r ∈ requests, r.length < 2 ^ 64) ∧
      s.aofBuffer = encodeRequests requests ∧ requests.length ≤ s.writeCount) :
    ∃ requests : List (List Nat), (∀ r ∈ requests, r.length < 2 ^ 64) ∧
      (query ops s request).manager.aofBuffer = encodeRequests requests ∧
      requests.length ≤ (query ops s request).manager.writeCount := by
  obtain ⟨requests, hlen, hbuf, hcount⟩ := h
  rcases query_log_cases ops s request with ⟨ha, hc⟩ | ⟨ha, hc⟩
  · exact ⟨requests, hlen, by rw [ha, hbuf], by rw [hc]; exact hcount⟩
  · refine ⟨requests ++ [request], ?_, ?_, ?_⟩
    · intro r hr
      rcases List.mem_append.mp hr with h | h
      · exact hlen r h
      · rw [List.mem_singleton.mp h]
        exact hlength
    · rw [ha, hbuf, encodeRequests_append, encodeRequests_cons]
      simp [encodeRequests]
    · rw [hc, List.length_append, List.length_singleton]
      omega

/-- Whatever `writable` does, the command log buffer afterwards is the one from before or
empty, and `writeCount` is the one from before or, with an empty buffer, zero. -/
theorem writable_log_cases {D : Type} (ops : DatabaseOps D) (fileSize : Nat)
    (s : DatabaseManager D) :
    ((writable ops fileSize s).1.aofBuffer = s.aofBuffer ∧
      (writable ops fileSize s).1.writeCount = s.writeCount) ∨
    (writable ops fileSize s).1.aofBuffer = [] := by
  by_cases hw : s.writeBuffer = []
  · by_cases hr : rolloverDue (s.seconds + 1) s.writeCount = true
    · rw [writable_rollover ops fileSize s hw hr]
      exact Or.inr rfl
    · have hr' : rolloverDue (s.seconds + 1) s.writeCount = false := by simpa using hr
      by_cases ha : s.aofBuffer = []
      · rw [writable_idle ops fileSize s (Or.inr ⟨hr', ha⟩)]
        exact Or.inl ⟨rfl, rfl⟩
      · rw [writable_append ops fileSize s hw hr' ha]
        exact Or.inr rfl
  · rw [writable_idle ops fileSize s (Or.inl hw)]
    exact Or.inl ⟨rfl, rfl⟩

theorem loadDatabases_rest_subset {D : Type} (ops : DatabaseOps D) (count : Nat)
    (databases result : Databases D) (data rest : List Nat)
    (h : loadDatabases ops count databases data = .ok (result, rest)) :
    ∀ b ∈ rest, b ∈ data := by
  induction count generalizing databases data with
  | zero =>
    simp only [loadDatabases, Except.ok.injEq, Prod.mk.injEq] at h
    rw [h.2]
    exact fun b hb => hb
  | succ count ih =>
    simp only [loadDatabases] at h
    split at h
    · simp at h
    · split at h
      · simp at h
      · split at h
        · simp at h
        · intro b hb
          exact List.mem_of_mem_drop (List.mem_of_mem_drop (List.mem_of_mem_drop (ih _ _ h b hb)))

/-- The invariant of the command log buffer holds after construction from a file of bytes. -/
theorem construct_log_invariant {D : Type} (ops : DatabaseOps D) (file : Option (List Nat))
    (s : DatabaseManager D) (hbytes : ∀ buffer, file = some buffer → ∀ b ∈ buffer, b < 256)
    (h : DatabaseManager.construct ops file = some (.ok s)) :
    ∃ requests : List (List Nat), (∀ r ∈ requests, r.length < 2 ^ 64) ∧
      s.aofBuffer = encodeRequests requests ∧ requests.length ≤ s.writeCount := by
  have hinitial : ∀ t : DatabaseManager D, DatabaseManager.initial ops = t →
      ∃ requests : List (List Nat), (∀ r ∈ requests, r.length < 2 ^ 64) ∧
        t.aofBuffer = encodeRequests requests ∧ requests.length ≤ t.writeCount := by
    intro t ht
    subst ht
    exact ⟨[], by simp, rfl, Nat.le_refl _⟩
  unfold DatabaseManager.construct at h
  split at h
  · simp only [Option.some.injEq, Except.ok.injEq] at h
    exact hinitial s h
  · rename_i buffer
    split at h
    · simp only [Option.some.injEq, Except.ok.injEq] at h
      exact hinitial s h
    · split at h
      · simp at h
      · split at h
        · simp at h
        · rename_i databases data hload
          have hdata : ∀ b ∈ data, b < 256 := fun b hb =>
            hbytes buffer rfl b
              (List.mem_of_mem_drop (loadDatabases_rest_subset ops _ _ _ _ _ hload b hb))
          exact forEachRequest_invariant_of_bytes (replayStep ops)
            (fun t => ∃ requests : List (List Nat), (∀ r ∈ requests, r.length < 2 ^ 64) ∧
              t.aofBuffer = encodeRequests requests ∧ requests.length ≤ t.writeCount)
            (fun t request result ht hlength hstep => by
              have hq := query_keeps_log_invariant ops t request hlength ht
              rw [← (replayStep_ok ops t result request hstep).1] at hq
              exact hq)
            _ _ _ _ hdata ⟨[], by simp, rfl, Nat.le_refl _⟩ h

/-! ### Recovery of a file that has grown -/

/-- Any fuel that covers the data gives the same result. -/
theorem forEachRequest_fuel {σ : Type} (step : σ → List Nat → Except Failure σ)
    (fuel other : Nat) (s : σ) (data : List Nat) (hfuel : data.length ≤ fuel)
    (hother : data.length ≤ other) :
    forEachRequest step fuel s data = forEachRequest step other s data := by
  induction fuel generalizing other s data with
  | zero =>
    cases data with
    | nil => cases other <;> rfl
    | cons b bs => simp at hfuel
  | succ fuel ih =>
    cases data with
    | nil => cases other <;> rfl
    | cons b bs =>
      cases other with
      | zero => simp at hother
      | succ other =>
        simp only [forEachRequest]
        split
        · rfl
        · split
          · rfl
          · split
            · apply ih
              · simp only [List.length_drop, List.length_cons] at hfuel ⊢
                omega
              · simp only [List.length_drop, List.length_cons] at hother ⊢
                omega
            · rfl

/-- The replay loop on data that it reads to the end without a failure, followed by more
data: it goes on with the rest from the state it reached. -/
theorem forEachRequest_append {σ : Type} (step : σ → List Nat → Except Failure σ)
    (fuel : Nat) (s reached : σ) (data extra : List Nat)
    (h : forEachRequest step fuel s data = some (.ok reached)) (other : Nat)
    (hother : (data ++ extra).length ≤ other) :
    forEachRequest step other s (data ++ extra)
      = forEachRequest step extra.length reached extra := by
  induction fuel generalizing other s data with
  | zero =>
    cases data with
    | nil =>
      simp only [forEachRequest, Option.some.injEq, Except.ok.injEq] at h
      subst h
      exact forEachRequest_fuel step _ _ _ _ (by simpa using hother) (Nat.le_refl _)
    | cons b bs => simp [forEachRequest] at h
  | succ fuel ih =>
    cases data with
    | nil =>
      simp only [forEachRequest, Option.some.injEq, Except.ok.injEq] at h
      subst h
      exact forEachRequest_fuel step _ _ _ _ (by simpa using hother) (Nat.le_refl _)
    | cons b bs =>
      simp only [forEachRequest] at h
      split at h
      · simp at h
      · rename_i h8
        split at h
        · simp at h
        · rename_i hsize
          split at h
          · rename_i s1 hs1
            cases other with
            | zero => simp at hother
            | succ other =>
              have h8' : 8 ≤ (b :: bs).length := by omega
              have htake : (b :: bs ++ extra).take 8 = (b :: bs).take 8 :=
                List.take_append_of_le_length h8'
              have hdrop : (b :: bs ++ extra).drop 8 = (b :: bs).drop 8 ++ extra :=
                List.drop_append_of_le_length h8'
              have hsize' : readU64 ((b :: bs).take 8) ≤ ((b :: bs).drop 8).length := by omega
              have hcons : b :: bs ++ extra = b :: (bs ++ extra) := rfl
              have hgoal8 : ¬ (b :: (bs ++ extra)).length < 8 := by
                rw [← hcons, List.length_append]
                omega
              rw [hcons]
              simp only [forEachRequest, hgoal8, if_false]
              rw [← hcons, htake, hdrop, List.take_append_of_le_length hsize',
                List.drop_append_of_le_length hsize']
              have hgoalsize : ¬ ((b :: bs).drop 8 ++ extra).length
                  < readU64 ((b :: bs).take 8) := by
                rw [List.length_append]
                omega
              simp only [hgoalsize, if_false, hs1]
              apply ih s1 _ h
              simp only [List.length_append, List.length_drop, List.length_cons] at hother ⊢
              omega
          · simp at h

/-- The loop over the `db_record`s on data that holds all the records, followed by more
data: the same map, and the additional data stays behind. -/
theorem loadDatabases_append {D : Type} (ops : DatabaseOps D) (count : Nat)
    (databases result : Databases D) (data rest extra : List Nat)
    (h : loadDatabases ops count databases data = .ok (result, rest)) :
    loadDatabases ops count databases (data ++ extra) = .ok (result, rest ++ extra) := by
  induction count generalizing databases data with
  | zero =>
    simp only [loadDatabases, Except.ok.injEq, Prod.mk.injEq] at h ⊢
    exact ⟨h.1, by rw [h.2]⟩
  | succ count ih =>
    simp only [loadDatabases] at h
    split at h
    · simp at h
    · rename_i h8
      split at h
      · simp at h
      · rename_i h16
        split at h
        · simp at h
        · rename_i hsize
          have h8' : 8 ≤ data.length := by omega
          have h16' : 8 ≤ (data.drop 8).length := by omega
          have hsize' : readU64 ((data.drop 8).take 8) ≤ ((data.drop 8).drop 8).length := by
            omega
          have g8 : ¬ (data ++ extra).length < 8 := by
            rw [List.length_append]
            omega
          have g16 : ¬ (data.drop 8 ++ extra).length < 8 := by
            rw [List.length_append]
            omega
          have gsize : ¬ ((data.drop 8).drop 8 ++ extra).length
              < readU64 ((data.drop 8).take 8) := by
            rw [List.length_append]
            omega
          simp only [loadDatabases, g8, if_false, List.take_append_of_le_length h8',
            List.drop_append_of_le_length h8', g16, List.take_append_of_le_length h16',
            List.drop_append_of_le_length h16', gsize, List.take_append_of_le_length hsize',
            List.drop_append_of_le_length hsize']
          exact ih _ _ h

/-- The constructor on a file it accepts, followed by more data: the additional data is
replayed on the manager the file alone gives. -/
theorem construct_append {D : Type} (ops : DatabaseOps D) (file extra : List Nat)
    (r : DatabaseManager D) (hne : file ≠ [])
    (h : DatabaseManager.construct ops (some file) = some (.ok r)) :
    DatabaseManager.construct ops (some (file ++ extra))
      = forEachRequest (replayStep ops) extra.length r extra := by
  simp only [DatabaseManager.construct, isEmpty_eq_false_of_ne_nil hne, Bool.false_eq_true,
    if_false] at h
  split at h
  · simp at h
  · rename_i h8
    split at h
    · simp at h
    · rename_i databases data hload
      have hne' : file ++ extra ≠ [] := by simp [hne]
      have h8' : 8 ≤ file.length := by omega
      have g8 : ¬ (file ++ extra).length < 8 := by
        rw [List.length_append]
        omega
      simp only [DatabaseManager.construct, isEmpty_eq_false_of_ne_nil hne', Bool.false_eq_true,
        if_false, g8, List.take_append_of_le_length h8', List.drop_append_of_le_length h8',
        loadDatabases_append ops _ _ _ _ _ extra hload]
      exact forEachRequest_append (replayStep ops) _ _ _ _ _ h _ (Nat.le_refl _)

/-- The constructor on a file it accepts, followed by one more record: the request of the
record is replayed on the manager the file alone gives. -/
theorem construct_append_record {D : Type} (ops : DatabaseOps D) (file request : List Nat)
    (r : DatabaseManager D) (hne : file ≠ []) (hlength : request.length < 2 ^ 64)
    (h : DatabaseManager.construct ops (some file) = some (.ok r)) :
    DatabaseManager.construct ops (some (file ++ (u64le request.length ++ request)))
      = some (replayStep ops r request) := by
  rw [construct_append ops file _ r hne h]
  have hfuel : (u64le request.length ++ request).length
      = (request.length + 7) + 1 := by
    rw [List.length_append, u64le_length]
    omega
  have hform : u64le request.length ++ request = u64le request.length ++ (request ++ []) := by
    rw [List.append_nil]
  rw [hfuel, hform, forEachRequest_record _ _ _ _ _ hlength]
  cases replayStep ops r request with
  | error failure => rfl
  | ok s => cases request.length + 7 <;> rfl

/-! ### Recovery of a snapshot -/

theorem assign_append_of_not_mem {D : Type} (pre m : Databases D) (id : Nat) (v : D)
    (hnew : id ∉ pre.map Prod.fst) : (pre ++ m).assign id v = pre ++ m.assign id v := by
  induction pre with
  | nil => rfl
  | cons e rest ih =>
    obtain ⟨k, d⟩ := e
    simp only [List.map_cons, List.mem_cons, not_or] at hnew
    have hk : ¬ k = id := fun h => hnew.1 h.symm
    simp [Databases.assign, hk, ih hnew.2]

/-- Records that come with exactly the ids of the map, each once and in the order of the map,
replace every database in place. -/
theorem foldl_applyRecord_replace {D : Type} (ops : DatabaseOps D)
    (records : List (Nat × List Nat)) (pre old : Databases D)
    (hkeys : old.map Prod.fst = records.map Prod.fst)
    (hpre : ∀ k ∈ pre.map Prod.fst, k ∉ records.map Prod.fst)
    (hnodup : (records.map Prod.fst).Nodup) :
    records.foldl (applyRecord ops) (pre ++ old)
      = pre ++ records.map (fun r => (r.1, ops.create r.1 r.2)) := by
  induction records generalizing pre old with
  | nil =>
    cases old with
    | nil => rfl
    | cons e rest => simp at hkeys
  | cons r records ih =>
    cases old with
    | nil => simp at hkeys
    | cons e old =>
      obtain ⟨k, d⟩ := e
      simp only [List.map_cons, List.cons.injEq] at hkeys
      obtain ⟨hk, hrest⟩ := hkeys
      simp only [List.map_cons, List.nodup_cons] at hnodup
      have hnotpre : r.1 ∉ pre.map Prod.fst := by
        intro hmem
        exact hpre r.1 hmem (by simp)
      have hstep : applyRecord ops (pre ++ (k, d) :: old) r
          = (pre ++ [(r.1, ops.create r.1 r.2)]) ++ old := by
        have hmem : r.1 ∈ (pre ++ (k, d) :: old).map Prod.fst := by simp [hk]
        simp only [applyRecord, hmem, if_true]
        rw [assign_append_of_not_mem pre _ r.1 _ hnotpre]
        simp [Databases.assign, hk]
      rw [List.foldl_cons, hstep, ih (pre ++ [(r.1, ops.create r.1 r.2)]) old hrest ?_ hnodup.2]
      · simp
      · intro x hx
        simp only [List.map_append, List.map_cons, List.map_nil, List.mem_append,
          List.mem_singleton] at hx
        rcases hx with hx | hx
        · intro hmem
          exact hpre x hx (by simp [hmem])
        · rw [hx]
          exact hnodup.1

/-- The databases of a snapshot, each in a state the contract knows, are the `db_record`s of
bodies from which the constructor rebuilds them. -/
theorem snapshot_records {D : Type} (ops : DatabaseOps D) (valid : Nat → D → Prop)
    (contract : DatabaseContract ops valid) (m : Databases D)
    (hvalid : ∀ e ∈ m, valid e.1 e.2) :
    ∃ records : List (Nat × List Nat),
      records.map (fun r => (r.1, ops.create r.1 r.2)) = m ∧
      (m.map fun e => ops.serialize e.2).flatten = encodeRecords records ∧
      ∀ r ∈ records, r.2.length < 2 ^ 64 := by
  induction m with
  | nil => exact ⟨[], rfl, rfl, by simp⟩
  | cons e rest ih =>
    obtain ⟨k, d⟩ := e
    obtain ⟨records, hmap, hflat, hbound⟩ :=
      ih (fun x hx => hvalid x (List.mem_cons_of_mem _ hx))
    obtain ⟨body, hbody, hser, hcreate⟩ :=
      contract.roundTrip k d (hvalid (k, d) (List.mem_cons_self _ _))
    refine ⟨(k, body) :: records, ?_, ?_, ?_⟩
    · simp [hmap, hcreate]
    · rw [encodeRecords_cons, ← hflat]
      simp [hser]
    · intro r hr
      rcases List.mem_cons.mp hr with h | h
      · rw [h]
        exact hbody
      · exact hbound r h

/-- The constructor on a snapshot of sixteen databases 0..15 in states the contract knows
rebuilds exactly these databases. -/
theorem construct_snapshot {D : Type} (ops : DatabaseOps D) (valid : Nat → D → Prop)
    (contract : DatabaseContract ops valid) (m : Databases D)
    (hkeys : m.map Prod.fst = List.range 16) (hvalid : ∀ e ∈ m, valid e.1 e.2) :
    DatabaseManager.construct ops
        (some (u64le m.length ++ (m.map fun e => ops.serialize e.2).flatten))
      = some (.ok { DatabaseManager.initial ops with databases := m }) := by
  obtain ⟨records, hmap, hflat, hbound⟩ := snapshot_records ops valid contract m hvalid
  have hids : records.map Prod.fst = List.range 16 := by
    rw [← hkeys, ← hmap]
    simp [Function.comp_def]
  have hlen : m.length = records.length := by
    rw [← hmap, List.length_map]
  have hlen16 : records.length = 16 := by
    have := congrArg List.length hids
    simpa using this
  have hb : ∀ r ∈ records, r.1 < 2 ^ 64 ∧ r.2.length < 2 ^ 64 := by
    intro r hr
    refine ⟨?_, hbound r hr⟩
    have hmem : r.1 ∈ records.map Prod.fst := List.mem_map_of_mem _ hr
    rw [hids, List.mem_range] at hmem
    omega
  have hload := loadDatabases_encodeRecords ops records (DatabaseManager.initial ops).databases
    [] hb
  rw [List.append_nil] at hload
  have hfold := foldl_applyRecord_replace ops records [] (DatabaseManager.initial ops).databases
    (by rw [initial_keys, hids]) (by simp) (by rw [hids]; exact List.nodup_range 16)
  rw [List.nil_append, List.nil_append, hmap] at hfold
  rw [hflat, hlen, construct_header ops records.length _ (by omega), hload, hfold]
  rfl

/-! ### One request, on the running manager and on the recovered one -/

theorem unrecorded_response {D : Type} (s : DatabaseManager D) (id : Nat) (r : Reply D) :
    (unrecorded s id r).response
      = match r.2 with
        | some response => .ok response
        | none => .error .database := by
  rcases r with ⟨d, _ | response⟩ <;> rfl

theorem recorded_response {D : Type} (s : DatabaseManager D) (id : Nat)
    (requestCopy : List Nat) (r : Reply D) :
    (recorded s id requestCopy r).response
      = match r.2 with
        | some response => .ok response
        | none => .error .database := by
  rcases r with ⟨d, _ | response⟩ <;> rfl

theorem movedAndRecorded_response {D : Type} (s : DatabaseManager D)
    (requestCopy : List Nat) (r : Reply (Databases D)) :
    (movedAndRecorded s requestCopy r).response
      = match r.2 with
        | some response => .ok response
        | none => .error .database := by
  rcases r with ⟨d, _ | response⟩ <;> rfl

/-- The response of `query` and the databases it leaves depend on the databases only, not on
the counters or the buffers. -/
theorem query_congr {D : Type} (ops : DatabaseOps D) (s t : DatabaseManager D)
    (request : List Nat) (hdb : s.databases = t.databases) :
    (query ops s request).response = (query ops t request).response ∧
      (query ops s request).manager.databases = (query ops t request).manager.databases := by
  cases request with
  | nil => exact ⟨rfl, hdb⟩
  | cons byte rest =>
    by_cases hlt : rest.length < 8
    · simp [query, hlt, hdb]
    · rw [query_cons ops s byte rest (by omega), query_cons ops t byte rest (by omega), ← hdb]
      cases hfind : s.databases.find (readU64 (rest.take 8)) with
      | none => exact ⟨rfl, hdb⟩
      | some database =>
        simp only []
        rcases hc : Command.ofOrdinal byte with _ | c
        · exact ⟨rfl, hdb⟩
        · cases c <;>
            simp only [dispatch, unrecorded_response, recorded_response,
              movedAndRecorded_response, unrecorded_databases, recorded_databases,
              movedAndRecorded_databases, select, hdb, and_self]

theorem find_some_mem {D : Type} (m : Databases D) (id : Nat) (d : D)
    (h : m.find id = some d) : (id, d) ∈ m := by
  induction m with
  | nil => simp [Databases.find] at h
  | cons e rest ih =>
    obtain ⟨k, d0⟩ := e
    by_cases hk : k = id
    · simp only [Databases.find, hk, if_true, Option.some.injEq] at h
      simp [hk, h]
    · simp only [Databases.find, hk, if_false] at h
      exact List.mem_cons_of_mem _ (ih h)

theorem valid_assign {D : Type} (valid : Nat → D → Prop) (m : Databases D) (id : Nat) (v : D)
    (hall : ∀ e ∈ m, valid e.1 e.2) (hv : valid id v) :
    ∀ e ∈ m.assign id v, valid e.1 e.2 := by
  induction m with
  | nil => simp [Databases.assign]
  | cons e rest ih =>
    obtain ⟨k, d0⟩ := e
    by_cases hk : k = id
    · simp only [Databases.assign, hk, if_true]
      intro x hx
      rcases List.mem_cons.mp hx with h | h
      · rw [h]
        exact hv
      · exact hall x (List.mem_cons_of_mem _ h)
    · simp only [Databases.assign, hk, if_false]
      intro x hx
      rcases List.mem_cons.mp hx with h | h
      · rw [h]
        exact hall (k, d0) (List.mem_cons_self _ _)
      · exact ih (fun y hy => hall y (List.mem_cons_of_mem _ hy)) x h

/-- An arm that records, when it answers, keeps the ids and leaves every database in a state
the contract knows, provided the member function does. -/
theorem recorded_valid {D : Type} (valid : Nat → D → Prop) (s : DatabaseManager D) (id : Nat)
    (requestCopy : List Nat) (r : Reply D) (response : List Nat)
    (hok : (recorded s id requestCopy r).response = .ok response)
    (hall : ∀ e ∈ s.databases, valid e.1 e.2)
    (hv : ∀ answer, r.2 = some answer → valid id r.1) :
    (recorded s id requestCopy r).manager.databases.map Prod.fst = s.databases.map Prod.fst ∧
      ∀ e ∈ (recorded s id requestCopy r).manager.databases, valid e.1 e.2 := by
  rw [recorded_databases, keys_assign]
  refine ⟨rfl, ?_⟩
  rcases r with ⟨d, _ | answer⟩
  · simp [recorded] at hok
  · exact valid_assign valid _ _ _ hall (hv answer rfl)

/-- A mutating command that `query` answers keeps the ids of the map and leaves every
database in a state the contract knows. -/
theorem query_mutating_valid {D : Type} (ops : DatabaseOps D) (valid : Nat → D → Prop)
    (contract : DatabaseContract ops valid) (s : DatabaseManager D) (request : List Nat)
    (command : Command) (response : List Nat) (hcommand : commandOf request = some command)
    (hmem : command ∈ dispatchedMutating ++ undispatchedMutating)
    (hok : (query ops s request).response = .ok response)
    (hall : ∀ e ∈ s.databases, valid e.1 e.2) :
    (query ops s request).manager.databases.map Prod.fst = s.databases.map Prod.fst ∧
      ∀ e ∈ (query ops s request).manager.databases, valid e.1 e.2 := by
  obtain ⟨byte, rest, database, rfl, hlen, hfind⟩ := query_ok_inv ops s request response hok
  have hc : Command.ofOrdinal byte = some command := hcommand
  have hdb : valid (readU64 (rest.take 8)) database :=
    hall _ (find_some_mem _ _ _ hfind)
  rw [query_cons ops s byte rest hlen] at hok ⊢
  simp only [hfind, hc] at hok ⊢
  simp only [dispatchedMutating, undispatchedMutating, List.cons_append, List.nil_append,
    List.mem_cons, List.mem_singleton, List.not_mem_nil, or_false] at hmem
  rcases hmem with h | h | h | h | h | h | h | h | h | h | h | h | h | h | h | h | h | h | h | h
    <;> subst h <;> simp only [dispatch] at hok ⊢
  case inr.inl =>
    rw [movedAndRecorded_databases]
    rw [movedAndRecorded_response] at hok
    cases hr : (ops.move (readU64 (rest.take 8)) s.databases (rest.drop 8)).2 with
    | none => simp [hr] at hok
    | some answer => exact contract.move_valid _ _ _ answer hall hr
  all_goals
    first
      | exact ⟨trivial, hall⟩
      | exact recorded_valid valid s _ _ _ response hok hall
          (fun answer hanswer => contract.member_valid _ (by simp) _ _ _ answer hdb hanswer)

/-! ### The round trip -/

theorem pendingFile_ne_nil {D : Type} (server : Server D) : server.pendingFile ≠ [] := by
  unfold Server.pendingFile
  cases hfile : server.file with
  | nil =>
    obtain ⟨b, bs, hb⟩ := u64le_append_eq_cons 0 server.manager.aofBuffer
    simp only [List.isEmpty_nil, if_true, hb]
    exact List.cons_ne_nil _ _
  | cons b bs => simp

theorem recoverable_fresh {D : Type} (ops : DatabaseOps D) (valid : Nat → D → Prop)
    (contract : DatabaseContract ops valid) : Recoverable ops valid (Server.fresh ops) := by
  refine ⟨rfl, initial_keys ops, ?_, DatabaseManager.initial ops, ?_, rfl⟩
  · intro e he
    have he' : e ∈ (DatabaseManager.initial ops).databases := he
    rw [initial_databases] at he'
    obtain ⟨i, _, rfl⟩ := List.mem_map.mp he'
    exact contract.create_valid i
  · have hpending : (Server.fresh ops).pendingFile = u64le 0 ++ [] := by
      simp only [Server.pendingFile, Server.fresh, DatabaseManager.initial, List.isEmpty_nil,
        if_true]
    rw [hpending, construct_header ops 0 [] (by decide)]
    simp only [loadDatabases, forEachRequest, List.length_nil]

/-- A mutating command that `query` answers keeps the invariant. -/
theorem recoverable_command {D : Type} (ops : DatabaseOps D) (valid : Nat → D → Prop)
    (contract : DatabaseContract ops valid) (server : Server D) (frame : List Nat)
    (command : Command) (response : List Nat) (hinv : Recoverable ops valid server)
    (hlength : frame.length < 2 ^ 64) (hcommand : commandOf frame = some command)
    (hmem : command ∈ dispatchedMutating ++ undispatchedMutating)
    (hok : (query ops server.manager frame).response = .ok response) :
    Recoverable ops valid
      { server with manager := (query ops server.manager frame).manager } := by
  obtain ⟨hw, hkeys, hvalid, r, hconstruct, hdb⟩ := hinv
  have hstep := query_mutating_valid ops valid contract server.manager frame command response
    hcommand hmem hok hvalid
  refine ⟨by rw [← hw]; exact (query_keeps_clock ops server.manager frame).2,
    by rw [← hkeys]; exact hstep.1, hstep.2, ?_⟩
  obtain ⟨byte, rest, database, rfl, hlen, hfind⟩ :=
    query_ok_inv ops server.manager frame response hok
  have hc : Command.ofOrdinal byte = some command := hcommand
  rcases List.mem_append.mp hmem with hd | hu
  · have hrec := query_dispatched_records ops server.manager byte rest command database
      response hc hd hlen hfind hok
    have hcongr := query_congr ops r server.manager (byte :: rest) hdb
    have hreplay : replayStep ops r (byte :: rest)
        = .ok (query ops r (byte :: rest)).manager := by
      unfold replayStep
      rw [hcongr.1, hok]
    refine ⟨(query ops r (byte :: rest)).manager, ?_, hcongr.2⟩
    have happend := construct_append_record ops server.pendingFile (byte :: rest) r
      (pendingFile_ne_nil server) hlength hconstruct
    rw [hreplay] at happend
    rw [← happend]
    congr 2
    simp only [Server.pendingFile, hrec.1, List.append_assoc]
  · have hsilent := query_undispatched_is_silent ops server.manager byte rest command database
      hc hu hlen hfind
    refine ⟨r, ?_, ?_⟩
    · rw [← hconstruct]
      simp only [Server.pendingFile, hsilent]
    · rw [hdb, hsilent]

theorem housekeeping_rollover {D : Type} (ops : DatabaseOps D) (server : Server D)
    (hw : server.manager.writeBuffer = [])
    (hr : rolloverDue (server.manager.seconds + 1) server.manager.writeCount = true) :
    housekeeping ops server =
      { manager := { databases := server.manager.databases, seconds := 0, writeCount := 0,
                     aofBuffer := [], writeBuffer := [] }
        file := u64le server.manager.databases.length ++
          (server.manager.databases.map fun e => ops.serialize e.2).flatten } := by
  have hstep := writable_rollover ops server.file.length server.manager hw hr
  have hempty := snapshot_isEmpty ops server.manager.databases
  simp [housekeeping, hstep, wrote, truncatable, hempty]

theorem housekeeping_append {D : Type} (ops : DatabaseOps D) (server : Server D)
    (hw : server.manager.writeBuffer = [])
    (hr : rolloverDue (server.manager.seconds + 1) server.manager.writeCount = false)
    (ha : server.manager.aofBuffer ≠ []) :
    housekeeping ops server =
      { manager := { databases := server.manager.databases,
                     seconds := server.manager.seconds + 1,
                     writeCount := server.manager.writeCount, aofBuffer := [],
                     writeBuffer := [] }
        file := server.pendingFile } := by
  have hstep := writable_append ops server.file.length server.manager hw hr ha
  simp only [housekeeping, hstep, wrote, truncatable, if_true]
  have hfile : ((if (decide (server.manager.seconds + 1 = 0) && !(if server.file.length = 0 then
      u64le 0 ++ server.manager.aofBuffer else server.manager.aofBuffer).isEmpty) = true
      then [] else server.file) ++
      if server.file.length = 0 then u64le 0 ++ server.manager.aofBuffer
      else server.manager.aofBuffer) = server.pendingFile := by
    unfold Server.pendingFile
    cases server.file with
    | nil => simp
    | cons b bs => simp
  rw [hfile]

theorem housekeeping_idle {D : Type} (ops : DatabaseOps D) (server : Server D)
    (hr : rolloverDue (server.manager.seconds + 1) server.manager.writeCount = false)
    (ha : server.manager.aofBuffer = []) :
    housekeeping ops server =
      { manager := { server.manager with seconds := server.manager.seconds + 1 }
        file := server.file } := by
  have hstep := writable_idle ops server.file.length server.manager (Or.inr ⟨hr, ha⟩)
  simp [housekeeping, hstep]

/-- One housekeeping cycle keeps the invariant and leaves the command log buffer empty. -/
theorem recoverable_housekeeping {D : Type} (ops : DatabaseOps D) (valid : Nat → D → Prop)
    (contract : DatabaseContract ops valid) (server : Server D)
    (hinv : Recoverable ops valid server) :
    Recoverable ops valid (housekeeping ops server) ∧
      (housekeeping ops server).manager.aofBuffer = [] := by
  obtain ⟨hw, hkeys, hvalid, r, hconstruct, hdb⟩ := hinv
  by_cases hr : rolloverDue (server.manager.seconds + 1) server.manager.writeCount = true
  · rw [housekeeping_rollover ops server hw hr]
    have hsnap := construct_snapshot ops valid contract server.manager.databases hkeys hvalid
    have hempty := snapshot_isEmpty ops server.manager.databases
    refine ⟨⟨rfl, hkeys, hvalid, { DatabaseManager.initial ops with
      databases := server.manager.databases }, ?_, rfl⟩, rfl⟩
    rw [← hsnap]
    simp only [Server.pendingFile, hempty, Bool.false_eq_true, if_false, List.append_nil]
  · have hr' : rolloverDue (server.manager.seconds + 1) server.manager.writeCount = false := by
      simpa using hr
    by_cases ha : server.manager.aofBuffer = []
    · rw [housekeeping_idle ops server hr' ha]
      refine ⟨⟨hw, hkeys, hvalid, r, ?_, hdb⟩, ha⟩
      rw [← hconstruct]
      rfl
    · rw [housekeeping_append ops server hw hr' ha]
      refine ⟨⟨rfl, hkeys, hvalid, r, ?_, hdb⟩, rfl⟩
      rw [← hconstruct]
      have hne := pendingFile_ne_nil server
      show DatabaseManager.construct ops
        (some ((if server.pendingFile.isEmpty then u64le 0 else server.pendingFile) ++ []))
          = DatabaseManager.construct ops (some server.pendingFile)
      rw [isEmpty_eq_false_of_ne_nil hne]
      simp

/-- A run of applied mutating commands and housekeeping cycles keeps the invariant. -/
theorem recoverable_run {D : Type} (ops : DatabaseOps D) (valid : Nat → D → Prop)
    (contract : DatabaseContract ops valid) (events : List Event) (server : Server D)
    (happlied : Applied ops events server) (hinv : Recoverable ops valid server) :
    Recoverable ops valid (run ops events server) := by
  induction events generalizing server with
  | nil => exact hinv
  | cons event events ih =>
    cases event with
    | command frame =>
      obtain ⟨hlength, ⟨command, hcommand, hmem⟩, ⟨response, hok⟩, hrest⟩ := happlied
      exact ih _ hrest
        (recoverable_command ops valid contract server frame command response hinv hlength
          hcommand hmem hok)
    | tick =>
      exact ih _ happlied (recoverable_housekeeping ops valid contract server hinv).1

/-- The stand-in with checked sizes meets the contract: a database of id `id` is in a known
state when it carries that id and its body is shorter than 2^64 bytes. -/
theorem checkedOps_contract :
    DatabaseContract checkedOps (fun id d => d.id = id ∧ d.body.length < 2 ^ 64) := by
  refine ⟨fun id => ⟨rfl, Nat.two_pow_pos 64⟩, ?_, ?_, ?_⟩
  · intro id d hd
    refine ⟨d.body, hd.2, ?_, ?_⟩
    · show u64le d.id ++ u64le d.body.length ++ d.body = _
      rw [hd.1, List.append_assoc]
    · show (⟨id, d.body⟩ : SampleDatabase) = d
      rw [← hd.1]
  · intro f hf id d statement response hd hresponse
    have hf' : f = SampleDatabase.changeChecked := by
      simp only [checkedOps, List.mem_cons, List.mem_singleton, List.not_mem_nil, or_false,
        or_self] at hf
      exact hf
    subst hf'
    unfold SampleDatabase.changeChecked at hresponse ⊢
    by_cases hfit : d.body.length + statement.length < 2 ^ 64
    · simp only [hfit, if_true]
      exact ⟨hd.1, by rw [List.length_append]; exact hfit⟩
    · have hfit' : ¬ d.body.length + statement.length < 18446744073709551616 := hfit
      simp [hfit'] at hresponse
  · intro id m statement response hall _
    exact ⟨rfl, hall⟩

/-! ## The claims -/

/-- C1 (evaluated at the failing input): on a fresh manager the frame `INCRBY` (ordinal 19)
for database 0, which exists, with statement `k`, is answered with the empty response and is
not recorded: the command log buffer stays empty and `writeCount` stays 0, because the switch
of `query` has no arm for `Command::incrBy`. -/
theorem C1_incrBy_frame_is_not_recorded :
    Command.ofOrdinal 19 = some Command.incrBy ∧
    ((DatabaseManager.initial sampleOps).databases.find 0).isSome = true ∧
    (query sampleOps (DatabaseManager.initial sampleOps)
        [19, 0, 0, 0, 0, 0, 0, 0, 0, 107]).response = .ok [] ∧
    (query sampleOps (DatabaseManager.initial sampleOps)
        [19, 0, 0, 0, 0, 0, 0, 0, 0, 107]).manager.aofBuffer = [] ∧
    (query sampleOps (DatabaseManager.initial sampleOps)
        [19, 0, 0, 0, 0, 0, 0, 0, 0, 107]).manager.writeCount = 0 :=
  ⟨rfl, rfl, rfl, rfl, rfl⟩

/-- C2: `writable` first advances `seconds` by one.  On an empty write buffer it takes the
rollover branch (seconds and writeCount reset, command log buffer cleared, write buffer set to
the snapshot, result true) exactly when, with the advanced seconds, one of the three
thresholds holds, whatever the command log buffer contains; otherwise `seconds` is the
advanced value and `writeCount` is untouched. -/
theorem C2_writable_rollover_iff_threshold {D : Type} (ops : DatabaseOps D) (fileSize : Nat)
    (s : DatabaseManager D) (hw : s.writeBuffer = []) :
    (writable ops fileSize s =
        ({ databases := s.databases, seconds := 0, writeCount := 0, aofBuffer := [],
           writeBuffer := serialize ops s }, true)
      ↔ ((s.seconds + 1 ≥ 900 ∧ s.writeCount > 1) ∨ (s.seconds + 1 ≥ 300 ∧ s.writeCount > 10) ∨
          (s.seconds + 1 ≥ 60 ∧ s.writeCount > 10000))) ∧
    (¬ ((s.seconds + 1 ≥ 900 ∧ s.writeCount > 1) ∨ (s.seconds + 1 ≥ 300 ∧ s.writeCount > 10) ∨
          (s.seconds + 1 ≥ 60 ∧ s.writeCount > 10000)) →
      (writable ops fileSize s).1.seconds = s.seconds + 1 ∧
      (writable ops fileSize s).1.writeCount = s.writeCount ∧
      ((writable ops fileSize s).2 = true ↔ s.aofBuffer ≠ [])) := by
  rw [← rolloverDue_iff]
  by_cases hr : rolloverDue (s.seconds + 1) s.writeCount = true
  · refine ⟨⟨fun _ => hr, fun _ => ?_⟩, fun h => absurd hr h⟩
    rw [writable_rollover ops fileSize s hw hr, serialize_eq]
  · have hr' : rolloverDue (s.seconds + 1) s.writeCount = false := by simpa using hr
    by_cases ha : s.aofBuffer = []
    · rw [writable_idle ops fileSize s (Or.inr ⟨hr', ha⟩)]
      simp [hr', ha]
    · rw [writable_append ops fileSize s hw hr' ha]
      simp [hr', ha]

/-- C2 at a concrete state: 899 seconds, 2 writes, a command log buffer holding one record. -/
theorem C2_writable_rollover_iff_threshold_witness :
    (writable sampleOps 5
        { DatabaseManager.initial sampleOps with
          seconds := 899, writeCount := 2, aofBuffer := u64le 1 ++ [7] }).2 = true ∧
    (writable sampleOps 5
        { DatabaseManager.initial sampleOps with
          seconds := 899, writeCount := 2, aofBuffer := u64le 1 ++ [7] }).1.aofBuffer = [] ∧
    (writable sampleOps 5
        { DatabaseManager.initial sampleOps with
          seconds := 899, writeCount := 2, aofBuffer := u64le 1 ++ [7] }).1.seconds = 0 := by
  have h := (C2_writable_rollover_iff_threshold sampleOps 5
    { DatabaseManager.initial sampleOps with
      seconds := 899, writeCount := 2, aofBuffer := u64le 1 ++ [7] } rfl).1.2
    (Or.inl ⟨by decide, by decide⟩)
  rw [h]
  exact ⟨rfl, rfl, rfl⟩

/-- C3: when `writable` has returned true and `truncatable` is then true, `seconds` and
`writeCount` are 0, the command log buffer is empty, the databases are those from before the
call, and the write buffer is the snapshot: the number of databases as 8 bytes followed by the
serialization of every database of the map; read back, its first 8 bytes are the number of
databases (as an `unsigned long`). -/
theorem C3_rollover_postcondition {D : Type} (ops : DatabaseOps D) (fileSize : Nat)
    (s : DatabaseManager D) (htrue : (writable ops fileSize s).2 = true)
    (htrunc : truncatable (writable ops fileSize s).1 = true) :
    (writable ops fileSize s).1.seconds = 0 ∧
    (writable ops fileSize s).1.writeCount = 0 ∧
    (writable ops fileSize s).1.aofBuffer = [] ∧
    (writable ops fileSize s).1.databases = s.databases ∧
    (writable ops fileSize s).1.writeBuffer =
      u64le (writable ops fileSize s).1.databases.length ++
        ((writable ops fileSize s).1.databases.map fun e => ops.serialize e.2).flatten ∧
    readU64 ((writable ops fileSize s).1.writeBuffer.take 8) =
      (writable ops fileSize s).1.databases.length % 2 ^ 64 := by
  by_cases hw : s.writeBuffer = []
  · by_cases hr : rolloverDue (s.seconds + 1) s.writeCount = true
    · rw [writable_rollover ops fileSize s hw hr]
      refine ⟨rfl, rfl, rfl, rfl, rfl, ?_⟩
      simp only [take_u64le_append, readU64_u64le]
    · have hr' : rolloverDue (s.seconds + 1) s.writeCount = false := by simpa using hr
      by_cases ha : s.aofBuffer = []
      · rw [writable_idle ops fileSize s (Or.inr ⟨hr', ha⟩)] at htrue
        simp at htrue
      · rw [writable_append ops fileSize s hw hr' ha] at htrunc
        simp [truncatable] at htrunc
  · rw [writable_idle ops fileSize s (Or.inl hw)] at htrue
    simp at htrue

/-- C3 at a concrete state: 299 seconds and 11 writes on the sixteen initial databases; the
snapshot starts with the count 16. -/
theorem C3_rollover_postcondition_witness :
    (writable sampleOps 0
        { DatabaseManager.initial sampleOps with seconds := 299, writeCount := 11 }).1.seconds = 0 ∧
    ((writable sampleOps 0
        { DatabaseManager.initial sampleOps with seconds := 299, writeCount := 11 }).1.writeBuffer.take 8
      = [16, 0, 0, 0, 0, 0, 0, 0]) := by
  have h := C3_rollover_postcondition sampleOps 0
    { DatabaseManager.initial sampleOps with seconds := 299, writeCount := 11 } rfl rfl
  exact ⟨h.1, rfl⟩

/-- C4: `truncatable` is true exactly when `seconds` is 0 and the write buffer is not empty;
and right after a call of `writable` that returned true, `truncatable` is true exactly when
that call took the rollover branch (the write buffer was empty and a threshold held with the
advanced seconds), so it is false after the append branch. -/
theorem C4_truncatable_iff_rollover {D : Type} (ops : DatabaseOps D) (fileSize : Nat)
    (s : DatabaseManager D) :
    (truncatable s = true ↔ s.seconds = 0 ∧ s.writeBuffer ≠ []) ∧
    ((writable ops fileSize s).2 = true →
      (truncatable (writable ops fileSize s).1 = true ↔
        (s.writeBuffer = [] ∧
          ((s.seconds + 1 ≥ 900 ∧ s.writeCount > 1) ∨ (s.seconds + 1 ≥ 300 ∧ s.writeCount > 10) ∨
            (s.seconds + 1 ≥ 60 ∧ s.writeCount > 10000))))) := by
  constructor
  · cases hb : s.writeBuffer <;> simp [truncatable, hb]
  · intro htrue
    rw [← rolloverDue_iff]
    by_cases hw : s.writeBuffer = []
    · by_cases hr : rolloverDue (s.seconds + 1) s.writeCount = true
      · rw [writable_rollover ops fileSize s hw hr]
        simp [truncatable, hw, hr, snapshot_isEmpty]
      · have hr' : rolloverDue (s.seconds + 1) s.writeCount = false := by simpa using hr
        by_cases ha : s.aofBuffer = []
        · rw [writable_idle ops fileSize s (Or.inr ⟨hr', ha⟩)] at htrue
          simp at htrue
        · rw [writable_append ops fileSize s hw hr' ha]
          simp [truncatable, hr']
    · rw [writable_idle ops fileSize s (Or.inl hw)] at htrue
      simp at htrue

/-- C4 at a concrete state: one record waiting, no threshold reached, a log file of 8 bytes;
`writable` returns true through the append branch and `truncatable` is false. -/
theorem C4_truncatable_iff_rollover_witness :
    (writable sampleOps 8
        { DatabaseManager.initial sampleOps with
          writeCount := 1, aofBuffer := u64le 1 ++ [7] }).2 = true ∧
    ¬ truncatable (writable sampleOps 8
        { DatabaseManager.initial sampleOps with
          writeCount := 1, aofBuffer := u64le 1 ++ [7] }).1 = true :=
  ⟨rfl, fun ht =>
    absurd (((C4_truncatable_iff_rollover sampleOps 8
      { DatabaseManager.initial sampleOps with
        writeCount := 1, aofBuffer := u64le 1 ++ [7] }).2 rfl).mp ht).2 (by decide)⟩

/-- C5: while the write buffer is not empty, `writable` returns false and leaves the write
buffer, the command log buffer, `writeCount` and the database map as they are, whatever
`seconds`, `writeCount` and the command log buffer hold; only `seconds` advances. -/
theorem C5_no_overlapping_cycles {D : Type} (ops : DatabaseOps D) (fileSize : Nat)
    (s : DatabaseManager D) (hbusy : s.writeBuffer ≠ []) :
    (writable ops fileSize s).2 = false ∧
    (writable ops fileSize s).1.writeBuffer = s.writeBuffer ∧
    (writable ops fileSize s).1.aofBuffer = s.aofBuffer ∧
    (writable ops fileSize s).1.writeCount = s.writeCount ∧
    (writable ops fileSize s).1.databases = s.databases ∧
    (writable ops fileSize s).1.seconds = s.seconds + 1 := by
  rw [writable_idle ops fileSize s (Or.inl hbusy)]
  exact ⟨rfl, rfl, rfl, rfl, rfl, rfl⟩

/-- C5 at a concrete state: a flush under way, 20000 writes after 1000 seconds and a record
waiting. -/
theorem C5_no_overlapping_cycles_witness :
    (writable sampleOps 0
        { DatabaseManager.initial sampleOps with
          seconds := 1000, writeCount := 20000, aofBuffer := u64le 1 ++ [7],
          writeBuffer := [1, 2, 3] }).2 = false ∧
    (writable sampleOps 0
        { DatabaseManager.initial sampleOps with
          seconds := 1000, writeCount := 20000, aofBuffer := u64le 1 ++ [7],
          writeBuffer := [1, 2, 3] }).1.writeBuffer = [1, 2, 3] :=
  ⟨(C5_no_overlapping_cycles sampleOps 0
      { DatabaseManager.initial sampleOps with
        seconds := 1000, writeCount := 20000, aofBuffer := u64le 1 ++ [7],
        writeBuffer := [1, 2, 3] } (by decide)).1,
   (C5_no_overlapping_cycles sampleOps 0
      { DatabaseManager.initial sampleOps with
        seconds := 1000, writeCount := 20000, aofBuffer := u64le 1 ++ [7],
        writeBuffer := [1, 2, 3] } (by decide)).2.1⟩

/-- C6: called with an empty write buffer, no threshold holding after the tick and a
non-empty command log buffer, `writable` returns true, empties the command log buffer, keeps
`writeCount`, and sets the write buffer to the previous command log buffer, preceded by eight
zero bytes when the log file has length 0. -/
theorem C6_append_path {D : Type} (ops : DatabaseOps D) (fileSize : Nat)
    (s : DatabaseManager D) (hw : s.writeBuffer = [])
    (hno : ¬ ((s.seconds + 1 ≥ 900 ∧ s.writeCount > 1) ∨
      (s.seconds + 1 ≥ 300 ∧ s.writeCount > 10) ∨ (s.seconds + 1 ≥ 60 ∧ s.writeCount > 10000)))
    (ha : s.aofBuffer ≠ []) :
    (writable ops fileSize s).2 = true ∧
    (writable ops fileSize s).1.aofBuffer = [] ∧
    (writable ops fileSize s).1.writeCount = s.writeCount ∧
    (fileSize ≠ 0 → (writable ops fileSize s).1.writeBuffer = s.aofBuffer) ∧
    (fileSize = 0 →
      (writable ops fileSize s).1.writeBuffer = [0, 0, 0, 0, 0, 0, 0, 0] ++ s.aofBuffer) := by
  rw [← rolloverDue_iff] at hno
  have hr : rolloverDue (s.seconds + 1) s.writeCount = false := by simpa using hno
  rw [writable_append ops fileSize s hw hr ha]
  refine ⟨rfl, rfl, rfl, fun hf => by simp [hf], fun hf => by simp [hf]; rfl⟩

/-- C6 at a concrete state: after one `SET k` on a fresh manager with a log file of length 0,
the write buffer is the header `u64 0` followed by the length-prefixed frame. -/
theorem C6_append_path_witness :
    (writable sampleOps 0
        (query sampleOps (DatabaseManager.initial sampleOps)
          [7, 0, 0, 0, 0, 0, 0, 0, 0, 107]).manager).1.writeBuffer
      = [0, 0, 0, 0, 0, 0, 0, 0] ++ ([10, 0, 0, 0, 0, 0, 0, 0] ++
          [7, 0, 0, 0, 0, 0, 0, 0, 0, 107]) :=
  (C6_append_path sampleOps 0
      (query sampleOps (DatabaseManager.initial sampleOps)
        [7, 0, 0, 0, 0, 0, 0, 0, 0, 107]).manager rfl (by decide) (by decide)).2.2.2.2 rfl

/-- C7 (evaluated at the failing input): on a fresh manager, whose databases are 0..15, the
`SELECT` frame for id 16 is not answered with `OK`: `databases.at(16)` throws before the
switch is reached, and no database 16 exists afterwards. -/
theorem C7_select_absent_id_throws :
    Command.ofOrdinal 0 = some Command.select ∧
    (DatabaseManager.initial sampleOps).databases.find 16 = none ∧
    (query sampleOps (DatabaseManager.initial sampleOps)
        [0, 16, 0, 0, 0, 0, 0, 0, 0]).response = .error .outOfRange ∧
    (query sampleOps (DatabaseManager.initial sampleOps)
        [0, 16, 0, 0, 0, 0, 0, 0, 0]).manager.databases.find 16 = none :=
  ⟨rfl, rfl, rfl, rfl⟩

/-- C8: a frame whose command is not `SELECT` and whose id is not a key of the database map
makes `query` fail with the out-of-range exception of `databases.at` (no such database); no
response is returned and the manager, hence the database map, the command log buffer and
`writeCount`, is as before. -/
theorem C8_absent_database_fails {D : Type} (ops : DatabaseOps D) (s : DatabaseManager D)
    (byte : Nat) (rest : List Nat) (_hcommand : Command.ofOrdinal byte ≠ some Command.select)
    (hlen : 8 ≤ rest.length) (habsent : s.databases.find (readU64 (rest.take 8)) = none) :
    query ops s (byte :: rest) = ⟨s, .error .outOfRange⟩ := by
  rw [query_cons ops s byte rest hlen, habsent]

/-- C8 at a concrete input: `SET` for id 16 on a fresh manager. -/
theorem C8_absent_database_fails_witness :
    (query sampleOps (DatabaseManager.initial sampleOps)
        [7, 16, 0, 0, 0, 0, 0, 0, 0, 107]).response = .error .outOfRange ∧
    (query sampleOps (DatabaseManager.initial sampleOps)
        [7, 16, 0, 0, 0, 0, 0, 0, 0, 107]).manager.aofBuffer = [] := by
  rw [C8_absent_database_fails sampleOps (DatabaseManager.initial sampleOps) 7
    [16, 0, 0, 0, 0, 0, 0, 0, 107] (by decide) (by decide) rfl]
  exact ⟨rfl, rfl⟩

/-- C9 (counterexample): byte 37 is the ordinal of no declared command, yet on a fresh
manager the frame with first byte 37 and id 0 is answered, with the empty response; `query`
does not fail. -/
theorem C9_unknown_command_is_answered :
    Command.ofOrdinal 37 = none ∧
    (query sampleOps (DatabaseManager.initial sampleOps)
        [37, 0, 0, 0, 0, 0, 0, 0, 0]).response = .ok [] :=
  ⟨rfl, rfl⟩

/-- C9 (amended): for a frame of at least 9 bytes whose first byte is the ordinal of no
declared command, `query` returns the empty response when the id is a key of the database
map, and fails with the out-of-range exception of `databases.at` when it is not; either way
the manager (databases, command log buffer, `writeCount`) is as before. -/
theorem C9_unknown_command_empty_response {D : Type} (ops : DatabaseOps D)
    (s : DatabaseManager D) (byte : Nat) (rest : List Nat)
    (hunknown : Command.ofOrdinal byte = none) (hlen : 8 ≤ rest.length) :
    (∀ database, s.databases.find (readU64 (rest.take 8)) = some database →
      query ops s (byte :: rest) = ⟨s, .ok []⟩) ∧
    (s.databases.find (readU64 (rest.take 8)) = none →
      query ops s (byte :: rest) = ⟨s, .error .outOfRange⟩) := by
  rw [query_cons ops s byte rest hlen]
  constructor
  · intro database hfind
    simp only [hfind, hunknown, dispatch]
  · intro habsent
    simp only [habsent]

/-- C9 (amended) at a concrete input: first byte 200, id 3, on a fresh manager. -/
theorem C9_unknown_command_empty_response_witness :
    query sampleOps (DatabaseManager.initial sampleOps) [200, 3, 0, 0, 0, 0, 0, 0, 0, 1, 2]
      = ⟨DatabaseManager.initial sampleOps, .ok []⟩ :=
  (C9_unknown_command_empty_response sampleOps (DatabaseManager.initial sampleOps) 200
    [3, 0, 0, 0, 0, 0, 0, 0, 1, 2] rfl (by decide)).1 ⟨3, []⟩ rfl

/-- C10 (counterexample): on the empty frame and on a frame of three bytes `query` reports
nothing; it reads outside the frame (`front()` of an empty span, eight id bytes where two are
left), which is undefined behaviour and no protocol error. -/
theorem C10_short_frame_reads_out_of_bounds :
    (query sampleOps (DatabaseManager.initial sampleOps) []).response
      = .error .outOfBounds ∧
    (query sampleOps (DatabaseManager.initial sampleOps) [7, 0, 0]).response
      = .error .outOfBounds :=
  ⟨rfl, rfl⟩

/-- C10 (amended): `query` checks no length.  On a frame shorter than 9 bytes its reads leave
the frame (undefined behaviour, no error is reported); in the model nothing is changed.  A
frame of at least 9 bytes splits into the command byte, the eight id bytes and the statement;
`query` is then the lookup of that id followed by the switch, and no read leaves the
frame. -/
theorem C10_header_reads_within_bounds {D : Type} (ops : DatabaseOps D)
    (s : DatabaseManager D) (frame : List Nat) :
    (frame.length < 9 → query ops s frame = ⟨s, .error .outOfBounds⟩) ∧
    (9 ≤ frame.length →
      (∃ byte idBytes statement, frame = byte :: (idBytes ++ statement) ∧ idBytes.length = 8 ∧
        query ops s frame =
          match s.databases.find (readU64 idBytes) with
          | none => ⟨s, .error .outOfRange⟩
          | some database =>
            dispatch ops s (Command.ofOrdinal byte) (readU64 idBytes) database statement frame) ∧
      (query ops s frame).response ≠ .error .outOfBounds) := by
  constructor
  · intro hshort
    cases frame with
    | nil => rfl
    | cons byte rest =>
      have hlt : rest.length < 8 := by
        simp only [List.length_cons] at hshort
        omega
      simp only [query, hlt, if_true]
  · intro hlong
    cases frame with
    | nil => simp at hlong
    | cons byte rest =>
      have hlen : 8 ≤ rest.length := by
        simp only [List.length_cons] at hlong
        omega
      refine ⟨⟨byte, rest.take 8, rest.drop 8, ?_, ?_, query_cons ops s byte rest hlen⟩, ?_⟩
      · rw [List.take_append_drop]
      · simp [List.length_take, hlen]
      · rw [query_cons ops s byte rest hlen]
        cases hfind : s.databases.find (readU64 (rest.take 8)) with
        | none => simp
        | some database => exact dispatch_not_outOfBounds _ _ _ _ _ _ _

/-- C10 (amended) at concrete inputs: a frame of 8 bytes, and a `GET` frame of 10 bytes. -/
theorem C10_header_reads_within_bounds_witness :
    query sampleOps (DatabaseManager.initial sampleOps) [8, 0, 0, 0, 0, 0, 0, 0]
      = ⟨DatabaseManager.initial sampleOps, .error .outOfBounds⟩ ∧
    (query sampleOps (DatabaseManager.initial sampleOps)
        [8, 0, 0, 0, 0, 0, 0, 0, 0, 107]).response ≠ .error .outOfBounds :=
  ⟨(C10_header_reads_within_bounds sampleOps (DatabaseManager.initial sampleOps)
      [8, 0, 0, 0, 0, 0, 0, 0]).1 (by decide),
   ((C10_header_reads_within_bounds sampleOps (DatabaseManager.initial sampleOps)
      [8, 0, 0, 0, 0, 0, 0, 0, 0, 107]).2 (by decide)).2⟩

/-- C11 (counterexample): on a file of three bytes, on a file whose only `db_record` announces
a body of five bytes and holds two, and on a file whose only request is cut after three of
its ten bytes, the constructor reports nothing; it reads outside the buffer, which is
undefined behaviour and no `CorruptLog` failure. -/
theorem C11_truncated_file_reads_out_of_bounds :
    DatabaseManager.construct sampleOps (some [1, 2, 3]) = some (.error .outOfBounds) ∧
    DatabaseManager.construct sampleOps
      (some ([1, 0, 0, 0, 0, 0, 0, 0] ++ [3, 0, 0, 0, 0, 0, 0, 0] ++ [5, 0, 0, 0, 0, 0, 0, 0] ++
        [1, 2])) = some (.error .outOfBounds) ∧
    DatabaseManager.construct sampleOps
      (some ([0, 0, 0, 0, 0, 0, 0, 0] ++ [10, 0, 0, 0, 0, 0, 0, 0] ++ [7, 0, 0]))
        = some (.error .outOfBounds) :=
  ⟨rfl, rfl, rfl⟩

/-- C11 (amended): the constructor checks no length and knows no `CorruptLog` failure.  It
always comes to an end in the model; a non-empty file shorter than eight bytes makes the read
of `db_count` leave the buffer (undefined behaviour); and a non-empty file that does not follow
the grammar of the log file, that is, one cut short at a count, an id, a size, a body or a
request, never yields a manager: the construction ends in a failure, which is the read outside
the buffer unless a replayed request failed before. -/
theorem C11_truncated_file_yields_no_manager {D : Type} (ops : DatabaseOps D)
    (file : List Nat) :
    DatabaseManager.construct ops (some file) ≠ none ∧
    (file ≠ [] → file.length < 8 →
      DatabaseManager.construct ops (some file) = some (.error .outOfBounds)) ∧
    (file ≠ [] → ¬ IsLogFile file →
      ∃ failure, DatabaseManager.construct ops (some file) = some (.error failure)) := by
  refine ⟨construct_total ops _, ?_, ?_⟩
  · intro hne hshort
    simp [DatabaseManager.construct, isEmpty_eq_false_of_ne_nil hne, hshort]
  · intro hne hbad
    cases h : DatabaseManager.construct ops (some file) with
    | none => exact absurd h (construct_total ops _)
    | some result =>
      cases result with
      | error failure => exact ⟨failure, rfl⟩
      | ok s => exact absurd (construct_ok_isLogFile ops file s hne h) hbad

/-- C11 (amended) at a concrete file: five bytes, too short for `db_count`. -/
theorem C11_truncated_file_yields_no_manager_witness :
    DatabaseManager.construct sampleOps (some [16, 0, 0, 0, 0]) = some (.error .outOfBounds) ∧
    ∃ failure,
      DatabaseManager.construct sampleOps (some [16, 0, 0, 0, 0]) = some (.error failure) :=
  ⟨(C11_truncated_file_yields_no_manager sampleOps [16, 0, 0, 0, 0]).2.1 (by decide) (by decide),
   (C11_truncated_file_yields_no_manager sampleOps [16, 0, 0, 0, 0]).2.2 (by decide)
     (fun h => absurd h.1 (by decide))⟩

/-- C12 (evaluated at the failing input): the file holds the header `u64 0` and one
length-prefixed `INCRBY` frame (ordinal 19) for database 0.  Recovery hands the frame to
`query`, which has no arm for it: the manager that results has an empty command log buffer and
`writeCount` 0, not the record and 1. -/
theorem C12_replayed_incrBy_is_not_recorded :
    DatabaseManager.construct sampleOps
      (some ([0, 0, 0, 0, 0, 0, 0, 0] ++ ([10, 0, 0, 0, 0, 0, 0, 0] ++
        [19, 0, 0, 0, 0, 0, 0, 0, 0, 107])))
      = some (.ok (DatabaseManager.initial sampleOps)) ∧
    (DatabaseManager.initial sampleOps).aofBuffer = [] ∧
    (DatabaseManager.initial sampleOps).writeCount = 0 :=
  ⟨rfl, rfl, rfl⟩

/-- C13: round trip.  Take a fresh manager with no file content and any sequence of mutating
commands, each applied (answered by `query`), interleaved at will with housekeeping cycles
(`writable`, truncate when `truncatable`, write of the write buffer, `wrote`).  Once a last
housekeeping cycle has persisted what was pending, the constructor run on the resulting
content of `dump.aof` succeeds and yields a manager with the same ids 0..15 and the same
database under each id, provided the class `Database` keeps the contract `DatabaseContract`:
its serialization is `u64 id || u64 body_size || body` and rebuilds to the same database, and
the mutating member functions, `move` included, leave databases for which this holds, `move`
keeping the ids of the map. -/
theorem C13_round_trip {D : Type} (ops : DatabaseOps D) (valid : Nat → D → Prop)
    (contract : DatabaseContract ops valid) (events : List Event)
    (happlied : Applied ops events (Server.fresh ops)) :
    ∃ r, DatabaseManager.construct ops
        (some (housekeeping ops (run ops events (Server.fresh ops))).file) = some (.ok r) ∧
      r.databases = (housekeeping ops (run ops events (Server.fresh ops))).manager.databases ∧
      r.databases.map Prod.fst = List.range 16 := by
  have hrun := recoverable_run ops valid contract events (Server.fresh ops) happlied
    (recoverable_fresh ops valid contract)
  obtain ⟨⟨_, hkeys, _, r, hconstruct, hdb⟩, hempty⟩ :=
    recoverable_housekeeping ops valid contract _ hrun
  generalize housekeeping ops (run ops events (Server.fresh ops)) = server at *
  cases hfile : server.file with
  | nil =>
    have hpending : server.pendingFile = u64le 0 ++ [] := by
      simp only [Server.pendingFile, hfile, hempty, List.isEmpty_nil, if_true]
    rw [hpending, construct_header ops 0 [] (by decide)] at hconstruct
    simp only [loadDatabases, forEachRequest, List.length_nil, Option.some.injEq,
      Except.ok.injEq] at hconstruct
    refine ⟨DatabaseManager.initial ops, rfl, ?_, initial_keys ops⟩
    rw [← hdb, ← hconstruct]
  | cons b bs =>
    have hpending : server.pendingFile = b :: bs := by
      simp only [Server.pendingFile, hfile, hempty, List.isEmpty_cons, Bool.false_eq_true,
        if_false, List.append_nil]
    rw [hpending] at hconstruct
    exact ⟨r, hconstruct, hdb, by rw [hdb]; exact hkeys⟩

/-- C13 at a concrete run: `SET` on database 0, a housekeeping cycle, `INCRBY` and `SET` on
database 1, then the last cycle. -/
theorem C13_round_trip_witness :
    ∃ r, DatabaseManager.construct checkedOps
        (some (housekeeping checkedOps (run checkedOps
          [Event.command [7, 0, 0, 0, 0, 0, 0, 0, 0, 107], Event.tick,
           Event.command [19, 1, 0, 0, 0, 0, 0, 0, 0, 108],
           Event.command [7, 1, 0, 0, 0, 0, 0, 0, 0, 108]]
          (Server.fresh checkedOps))).file) = some (.ok r) ∧
      r.databases = (housekeeping checkedOps (run checkedOps
          [Event.command [7, 0, 0, 0, 0, 0, 0, 0, 0, 107], Event.tick,
           Event.command [19, 1, 0, 0, 0, 0, 0, 0, 0, 108],
           Event.command [7, 1, 0, 0, 0, 0, 0, 0, 0, 108]]
          (Server.fresh checkedOps))).manager.databases ∧
      r.databases.map Prod.fst = List.range 16 :=
  C13_round_trip checkedOps _ checkedOps_contract _
    ⟨by decide, ⟨Command.set, rfl, by decide⟩, ⟨[79, 75], rfl⟩,
     by decide, ⟨Command.incrBy, rfl, by decide⟩, ⟨[], rfl⟩,
     by decide, ⟨Command.set, rfl, by decide⟩, ⟨[79, 75], rfl⟩, trivial⟩

/-- C14: with no file or an empty file the constructor yields exactly the sixteen empty
databases 0..15 and an empty command log buffer.  On a well-formed file the loop over the
`db_record`s applies the records in file order, `db_count` times, each to the existing
database with that id (replacing it) or as a new database, built from exactly the bytes of
its body, and leaves the bytes behind the last record; the ids afterwards are 0..15 together
with the ids of the records.  With no command log behind the records this map is the map of
the constructed manager; with a command log, and `Database::move` keeping the ids of the map,
the constructed manager has the same ids. -/
theorem C14_construction_databases {D : Type} (ops : DatabaseOps D)
    (records : List (Nat × List Nat)) (tail : List Nat) (hcount : records.length < 2 ^ 64)
    (hbound : ∀ r ∈ records, r.1 < 2 ^ 64 ∧ r.2.length < 2 ^ 64) :
    DatabaseManager.construct ops none = some (.ok (DatabaseManager.initial ops)) ∧
    DatabaseManager.construct ops (some []) = some (.ok (DatabaseManager.initial ops)) ∧
    (DatabaseManager.initial ops).databases
      = (List.range 16).map (fun i => (i, ops.create i [])) ∧
    (DatabaseManager.initial ops).aofBuffer = [] ∧
    loadDatabases ops records.length (DatabaseManager.initial ops).databases
        (encodeRecords records ++ tail)
      = .ok (records.foldl (applyRecord ops) (DatabaseManager.initial ops).databases, tail) ∧
    (∀ (m : Databases D) (id : Nat) (body : List Nat),
      (applyRecord ops m (id, body)).find id = some (ops.create id body)) ∧
    (∀ id, id ∈ (records.foldl (applyRecord ops)
        (DatabaseManager.initial ops).databases).map Prod.fst ↔
      id < 16 ∨ id ∈ records.map Prod.fst) ∧
    DatabaseManager.construct ops (some (u64le records.length ++ encodeRecords records))
      = some (.ok { DatabaseManager.initial ops with
          databases := records.foldl (applyRecord ops) (DatabaseManager.initial ops).databases }) ∧
    ((∀ id (m : Databases D) statement,
        ((ops.move id m statement).1).map Prod.fst = m.map Prod.fst) →
      ∀ s, DatabaseManager.construct ops
          (some (u64le records.length ++ (encodeRecords records ++ tail))) = some (.ok s) →
        s.databases.map Prod.fst = (records.foldl (applyRecord ops)
          (DatabaseManager.initial ops).databases).map Prod.fst) := by
  refine ⟨rfl, rfl, initial_databases ops, rfl,
    loadDatabases_encodeRecords ops records _ tail hbound, applyRecord_find ops, ?_, ?_, ?_⟩
  · intro id
    rw [foldl_applyRecord_keys, initial_keys, List.mem_range]
  · have h := loadDatabases_encodeRecords ops records (DatabaseManager.initial ops).databases []
      hbound
    rw [List.append_nil] at h
    rw [construct_header ops records.length _ hcount, h]
    rfl
  · intro hmove s hs
    rw [construct_header ops records.length _ hcount,
      loadDatabases_encodeRecords ops records _ tail hbound] at hs
    simp only [] at hs
    exact forEachRequest_invariant (replayStep ops)
      (fun t => t.databases.map Prod.fst = (records.foldl (applyRecord ops)
        (DatabaseManager.initial ops).databases).map Prod.fst)
      (fun t request result ht hstep => by
        have hq := query_keys ops hmove t request
        rw [← (replayStep_ok ops t result request hstep).1] at hq
        exact hq.trans ht)
      _ _ _ _ rfl hs

/-- C14 at a concrete file: two records, one for database 3 and one for the new id 20. -/
theorem C14_construction_databases_witness :
    (DatabaseManager.construct sampleOps
      (some (u64le 2 ++ encodeRecords [(3, [5, 6]), (20, [9])]))).map
        (fun r => r.toOption.map fun s => s.databases.map Prod.fst)
      = some (some [0, 1, 2, 3, 4, 5, 6, 7, 8, 9, 10, 11, 12, 13, 14, 15, 20]) := by
  have h := (C14_construction_databases sampleOps [(3, [5, 6]), (20, [9])] [] (by decide)
    (by decide)).2.2.2.2.2.2.2.1
  rw [show u64le 2 = u64le [((3 : Nat), [(5 : Nat), 6]), (20, [9])].length from rfl, h]
  rfl

/-- C15: with the write buffer and the command log buffer empty and, after the tick, none of
the three thresholds reached, `writable` returns false and changes only `seconds` (plus
one).  After a completed cycle (`writable` returned true, then `wrote`) both buffers are
empty, and further calls of `writable` with no `query` in between all return false, moving
only `seconds`, as long as no threshold is reached. -/
theorem C15_writable_false_when_idle {D : Type} (ops : DatabaseOps D) (fileSize : Nat)
    (s : DatabaseManager D) :
    (s.writeBuffer = [] → s.aofBuffer = [] →
      ¬ ((s.seconds + 1 ≥ 900 ∧ s.writeCount > 1) ∨ (s.seconds + 1 ≥ 300 ∧ s.writeCount > 10) ∨
          (s.seconds + 1 ≥ 60 ∧ s.writeCount > 10000)) →
      writable ops fileSize s = ({ s with seconds := s.seconds + 1 }, false)) ∧
    ((writable ops fileSize s).2 = true →
      (wrote (writable ops fileSize s).1).writeBuffer = [] ∧
      (wrote (writable ops fileSize s).1).aofBuffer = [] ∧
      ∀ sizes : List Nat,
        ¬ (((wrote (writable ops fileSize s).1).seconds + sizes.length ≥ 900 ∧
              (wrote (writable ops fileSize s).1).writeCount > 1) ∨
            ((wrote (writable ops fileSize s).1).seconds + sizes.length ≥ 300 ∧
              (wrote (writable ops fileSize s).1).writeCount > 10) ∨
            ((wrote (writable ops fileSize s).1).seconds + sizes.length ≥ 60 ∧
              (wrote (writable ops fileSize s).1).writeCount > 10000)) →
        ticks ops sizes (wrote (writable ops fileSize s).1) =
          ({ wrote (writable ops fileSize s).1 with
              seconds := (wrote (writable ops fileSize s).1).seconds + sizes.length },
            List.replicate sizes.length false)) := by
  constructor
  · intro hw ha hno
    rw [← rolloverDue_iff] at hno
    exact writable_idle ops fileSize s (Or.inr ⟨by simpa using hno, ha⟩)
  · intro htrue
    have h := writable_true ops fileSize s htrue
    refine ⟨rfl, h.1, ?_⟩
    intro sizes hno
    rw [← rolloverDue_iff] at hno
    exact ticks_idle ops sizes _ rfl h.1 (by simpa using hno)

/-- C15 at a concrete state: a fresh manager is idle; and after one `SET`, a flush and
`wrote`, the next 59 calls all return false. -/
theorem C15_writable_false_when_idle_witness :
    (writable sampleOps 0 (DatabaseManager.initial sampleOps)).2 = false ∧
    (ticks sampleOps (List.replicate 59 10)
      (wrote (writable sampleOps 0 (query sampleOps (DatabaseManager.initial sampleOps)
        [7, 0, 0, 0, 0, 0, 0, 0, 0, 107]).manager).1)).2 = List.replicate 59 false := by
  have h := C15_writable_false_when_idle sampleOps 0 (DatabaseManager.initial sampleOps)
  have h2 := C15_writable_false_when_idle sampleOps 0
    (query sampleOps (DatabaseManager.initial sampleOps) [7, 0, 0, 0, 0, 0, 0, 0, 0, 107]).manager
  constructor
  · rw [h.1 rfl rfl (by decide)]
  · rw [(h2.2 rfl).2.2 (List.replicate 59 10) (by decide)]
    rfl

/-- C16 (counterexample): on a fresh manager, after one `SET` for database 0, the very first
call of `writable` returns true: the record waits in the command log buffer and the append
branch takes it. -/
theorem C16_first_tick_returns_true :
    (query sampleOps (DatabaseManager.initial sampleOps)
        [7, 0, 0, 0, 0, 0, 0, 0, 0, 107, 118]).response = .ok [79, 75] ∧
    (writable sampleOps 0
      (query sampleOps (DatabaseManager.initial sampleOps)
        [7, 0, 0, 0, 0, 0, 0, 0, 0, 107, 118]).manager).2 = true :=
  ⟨rfl, rfl⟩

/-- C16 (amended): on a fresh manager, after exactly one successful `SET` for database 0 and
no other command, the first call of `writable` returns true through the append branch
(`truncatable` is false), and every later call returns false, however many follow, at 60, 300
and 900 ticks too, whether `wrote` has been called or not: `writeCount` is 1 and satisfies
none of the thresholds. -/
theorem C16_single_set_never_rolls_over {D : Type} (ops : DatabaseOps D)
    (statement response : List Nat) (fileSize : Nat) (sizes : List Nat)
    (hset : (query ops (DatabaseManager.initial ops)
      (7 :: (u64le 0 ++ statement))).response = .ok response) :
    Command.ofOrdinal 7 = some Command.set ∧
    (query ops (DatabaseManager.initial ops) (7 :: (u64le 0 ++ statement))).manager.writeCount
      = 1 ∧
    (writable ops fileSize
      (query ops (DatabaseManager.initial ops) (7 :: (u64le 0 ++ statement))).manager).2
      = true ∧
    truncatable (writable ops fileSize
      (query ops (DatabaseManager.initial ops) (7 :: (u64le 0 ++ statement))).manager).1
      = false ∧
    (ticks ops sizes (wrote (writable ops fileSize
      (query ops (DatabaseManager.initial ops) (7 :: (u64le 0 ++ statement))).manager).1)).2
      = List.replicate sizes.length false ∧
    (ticks ops sizes (writable ops fileSize
      (query ops (DatabaseManager.initial ops) (7 :: (u64le 0 ++ statement))).manager).1).2
      = List.replicate sizes.length false := by
  have hlen : 8 ≤ (u64le 0 ++ statement).length := by
    rw [List.length_append, u64le_length]
    omega
  have hfind : (DatabaseManager.initial ops).databases.find
      (readU64 ((u64le 0 ++ statement).take 8)) = some (ops.create 0 []) := by
    rw [take_u64le_append, readU64_u64le]
    exact initial_find_zero ops
  have hrec := query_dispatched_records ops (DatabaseManager.initial ops) 7
    (u64le 0 ++ statement) Command.set (ops.create 0 []) response rfl (by decide) hlen hfind hset
  have hclock := query_keeps_clock ops (DatabaseManager.initial ops) (7 :: (u64le 0 ++ statement))
  generalize (query ops (DatabaseManager.initial ops) (7 :: (u64le 0 ++ statement))).manager
    = s1 at hrec hclock ⊢
  have hcount : s1.writeCount = 1 := hrec.2
  have hw : s1.writeBuffer = [] := hclock.2
  have hsec : s1.seconds = 0 := hclock.1
  have ha : s1.aofBuffer ≠ [] := by
    rw [hrec.1]
    simp
  have hno : ∀ seconds, rolloverDue seconds s1.writeCount = false := by
    intro seconds
    rw [hcount]
    simp [rolloverDue]
  have happend := writable_append ops fileSize s1 hw (hno _) ha
  have hbusy : (writable ops fileSize s1).1.writeBuffer ≠ [] :=
    (writable_true ops fileSize s1 (by rw [happend])).2.1
  refine ⟨rfl, hcount, by rw [happend], ?_, ?_, ?_⟩
  · rw [happend]
    simp [truncatable]
  · rw [ticks_idle ops sizes _ rfl (by rw [happend]; rfl) (by rw [happend]; exact hno _)]
  · rw [ticks_busy ops sizes _ hbusy]

/-- C16 (amended) at a concrete input: `SET` with statement `kv`, an empty log file, then 899
further ticks after `wrote`. -/
theorem C16_single_set_never_rolls_over_witness :
    (ticks sampleOps (List.replicate 899 18) (wrote (writable sampleOps 0
      (query sampleOps (DatabaseManager.initial sampleOps)
        (7 :: (u64le 0 ++ [107, 118]))).manager).1)).2 = List.replicate 899 false :=
  by
    have h := (C16_single_set_never_rolls_over sampleOps [107, 118] [79, 75] 0
      (List.replicate 899 18) rfl).2.2.2.2.1
    rw [h, List.length_replicate]

/-- C17: for `SELECT` and each read-only command (`GET`, `EXISTS`, `TYPE`, `DUMP`, `STRLEN`,
`GETRANGE`, `MGET`) the arm of the switch leaves the command log buffer, `writeCount`,
`seconds` and the write buffer as they are, and so does `query` on every frame that carries
such a command and the id of an existing database: nothing is recorded. -/
theorem C17_reads_record_nothing {D : Type} (ops : DatabaseOps D) (s : DatabaseManager D)
    (command : Command) (hmem : command ∈ selectOrReadOnly) :
    (∀ (id : Nat) (database : D) (statement requestCopy : List Nat),
      (dispatch ops s (some command) id database statement requestCopy).manager.aofBuffer
        = s.aofBuffer ∧
      (dispatch ops s (some command) id database statement requestCopy).manager.writeCount
        = s.writeCount ∧
      (dispatch ops s (some command) id database statement requestCopy).manager.seconds
        = s.seconds ∧
      (dispatch ops s (some command) id database statement requestCopy).manager.writeBuffer
        = s.writeBuffer) ∧
    (∀ (byte : Nat) (rest : List Nat) (database : D),
      Command.ofOrdinal byte = some command → 8 ≤ rest.length →
      s.databases.find (readU64 (rest.take 8)) = some database →
      (query ops s (byte :: rest)).manager.aofBuffer = s.aofBuffer ∧
      (query ops s (byte :: rest)).manager.writeCount = s.writeCount ∧
      (query ops s (byte :: rest)).manager.seconds = s.seconds ∧
      (query ops s (byte :: rest)).manager.writeBuffer = s.writeBuffer) := by
  have hswitch : ∀ (id : Nat) (database : D) (statement requestCopy : List Nat),
      (dispatch ops s (some command) id database statement requestCopy).manager.aofBuffer
        = s.aofBuffer ∧
      (dispatch ops s (some command) id database statement requestCopy).manager.writeCount
        = s.writeCount ∧
      (dispatch ops s (some command) id database statement requestCopy).manager.seconds
        = s.seconds ∧
      (dispatch ops s (some command) id database statement requestCopy).manager.writeBuffer
        = s.writeBuffer := by
    intro id database statement requestCopy
    simp only [selectOrReadOnly, List.mem_cons, List.mem_singleton, List.not_mem_nil,
      or_false] at hmem
    rcases hmem with h | h | h | h | h | h | h | h <;> subst h <;>
      first
        | exact unrecorded_keeps_log _ _ _
        | exact ⟨rfl, rfl, rfl, rfl⟩
  refine ⟨hswitch, ?_⟩
  intro byte rest database hcommand hlen hfind
  rw [query_cons ops s byte rest hlen]
  simp only [hfind, hcommand]
  exact hswitch _ _ _ _

/-- C17 at a concrete input: `GET` (ordinal 8) for database 0 after one `SET`. -/
theorem C17_reads_record_nothing_witness :
    (query sampleOps
        (query sampleOps (DatabaseManager.initial sampleOps)
          [7, 0, 0, 0, 0, 0, 0, 0, 0, 107]).manager
        [8, 0, 0, 0, 0, 0, 0, 0, 0, 107]).manager.writeCount = 1 :=
  ((C17_reads_record_nothing sampleOps
      (query sampleOps (DatabaseManager.initial sampleOps)
        [7, 0, 0, 0, 0, 0, 0, 0, 0, 107]).manager
      Command.get (by decide)).2 8 [0, 0, 0, 0, 0, 0, 0, 0, 107] ⟨0, [107]⟩ rfl (by decide)
      rfl).2.1

/-- C18: `record` appends to the command log buffer the length of the frame as eight bytes,
least significant first, then the frame unchanged; it adds one to `writeCount` and touches
nothing else.  After recording frames one after the other the buffer is what it was followed
by the length-prefixed records in that order, and when every frame is shorter than 2^64 bytes
the loop recovery uses to split a command log hands the same frames back, in order. -/
theorem C18_record_appends_one_record {D : Type} (s : DatabaseManager D) (frame : List Nat)
    (frames : List (List Nat)) :
    (record s frame =
      { s with aofBuffer := s.aofBuffer ++ u64le frame.length ++ frame,
               writeCount := s.writeCount + 1 }) ∧
    (u64le frame.length).length = 8 ∧
    readU64 (u64le frame.length) = frame.length % 2 ^ 64 ∧
    (frames.foldl record s).aofBuffer = s.aofBuffer ++ encodeRequests frames ∧
    (frames.foldl record s).writeCount = s.writeCount + frames.length ∧
    ((∀ f ∈ frames, f.length < 2 ^ 64) →
      forEachRequest (fun (seen : List (List Nat)) request => Except.ok (seen ++ [request]))
        (encodeRequests frames).length [] (encodeRequests frames) = some (.ok frames)) := by
  refine ⟨rfl, u64le_length _, readU64_u64le _, ?_, ?_, ?_⟩
  · rw [foldl_record]
  · rw [foldl_record]
  · intro hlength
    rw [forEachRequest_encodeRequests _ frames _ [] (Nat.le_refl _) hlength]
    congr 1
    have hfold : ∀ (xs seen : List (List Nat)),
        xs.foldlM (fun (seen : List (List Nat)) request =>
          (Except.ok (seen ++ [request]) : Except Failure (List (List Nat)))) seen
          = Except.ok (seen ++ xs) := by
      intro xs
      induction xs with
      | nil => intro seen; simp [pure, Except.pure]
      | cons x xs ih =>
        intro seen
        rw [List.foldlM_cons]
        simp only [bind, Except.bind]
        rw [ih]
        simp
    simpa using hfold frames []

/-- C18 at concrete frames: two frames recorded into an empty buffer and split again. -/
theorem C18_record_appends_one_record_witness :
    ([[7, 1], [1, 2, 3]].foldl record (DatabaseManager.initial sampleOps)).aofBuffer
      = [2, 0, 0, 0, 0, 0, 0, 0, 7, 1, 3, 0, 0, 0, 0, 0, 0, 0, 1, 2, 3] ∧
    forEachRequest (fun (seen : List (List Nat)) request => Except.ok (seen ++ [request]))
      21 [] [2, 0, 0, 0, 0, 0, 0, 0, 7, 1, 3, 0, 0, 0, 0, 0, 0, 0, 1, 2, 3]
      = some (.ok [[7, 1], [1, 2, 3]]) :=
  ⟨(C18_record_appends_one_record (DatabaseManager.initial sampleOps) [] [[7, 1], [1, 2, 3]]).2.2.2.1,
   (C18_record_appends_one_record (DatabaseManager.initial sampleOps) [] [[7, 1], [1, 2, 3]]).2.2.2.2.2
     (by decide)⟩

/-- C19: when `writable` has returned true through the rollover branch and is called again
before `wrote`, the second call returns false, the write buffer still holds the same
snapshot, `seconds` is 1, and `truncatable`, true after the first call, is now false. -/
theorem C19_retry_loses_truncation {D : Type} (ops : DatabaseOps D) (fileSize again : Nat)
    (s : DatabaseManager D) (hw : s.writeBuffer = [])
    (hdue : (s.seconds + 1 ≥ 900 ∧ s.writeCount > 1) ∨ (s.seconds + 1 ≥ 300 ∧ s.writeCount > 10) ∨
      (s.seconds + 1 ≥ 60 ∧ s.writeCount > 10000)) :
    (writable ops fileSize s).2 = true ∧
    truncatable (writable ops fileSize s).1 = true ∧
    (writable ops fileSize s).1.writeBuffer = serialize ops s ∧
    (writable ops again (writable ops fileSize s).1).2 = false ∧
    (writable ops again (writable ops fileSize s).1).1.writeBuffer = serialize ops s ∧
    (writable ops again (writable ops fileSize s).1).1.seconds = 1 ∧
    truncatable (writable ops again (writable ops fileSize s).1).1 = false := by
  rw [← rolloverDue_iff] at hdue
  have h1 := writable_rollover ops fileSize s hw hdue
  have hne : (writable ops fileSize s).1.writeBuffer ≠ [] :=
    (writable_true ops fileSize s (by rw [h1])).2.1
  have h2 := writable_idle ops again (writable ops fileSize s).1 (Or.inl hne)
  rw [h2]
  rw [h1]
  simp [truncatable, serialize_eq, snapshot_isEmpty]

/-- C19 at a concrete state: 900 seconds reached with two writes. -/
theorem C19_retry_loses_truncation_witness :
    truncatable (writable sampleOps 100
      { DatabaseManager.initial sampleOps with seconds := 899, writeCount := 2 }).1 = true ∧
    truncatable (writable sampleOps 100 (writable sampleOps 100
      { DatabaseManager.initial sampleOps with seconds := 899, writeCount := 2 }).1).1 = false :=
  ⟨(C19_retry_loses_truncation sampleOps 100 100
      { DatabaseManager.initial sampleOps with seconds := 899, writeCount := 2 } rfl
      (Or.inl ⟨by decide, by decide⟩)).2.1,
   (C19_retry_loses_truncation sampleOps 100 100
      { DatabaseManager.initial sampleOps with seconds := 899, writeCount := 2 } rfl
      (Or.inl ⟨by decide, by decide⟩)).2.2.2.2.2.2⟩

/-- C20: in every manager reachable from construction (from no file or from a file of bytes
the constructor accepts) by `query`, `writable` and `wrote`, the command log buffer is the
concatenation of the length-prefixed records of some requests, each shorter than 2^64 bytes,
with nothing left over, so it follows the grammar of the command log; and the number of these
records is at most `writeCount`. -/
theorem C20_command_log_invariant {D : Type} (ops : DatabaseOps D) (s : DatabaseManager D)
    (hreach : Reachable ops s) :
    ∃ requests : List (List Nat), (∀ r ∈ requests, r.length < 2 ^ 64) ∧
      s.aofBuffer = encodeRequests requests ∧ IsCommandLog s.aofBuffer ∧
      requests.length ≤ s.writeCount := by
  have hinv : ∃ requests : List (List Nat), (∀ r ∈ requests, r.length < 2 ^ 64) ∧
      s.aofBuffer = encodeRequests requests ∧ requests.length ≤ s.writeCount := by
    induction hreach with
    | constructed file s hbytes hconstruct => exact construct_log_invariant ops file s hbytes hconstruct
    | afterQuery s request _ hlength ih => exact query_keeps_log_invariant ops s request hlength ih
    | afterWritable s fileSize _ ih =>
      rcases writable_log_cases ops fileSize s with ⟨ha, hc⟩ | ha
      · obtain ⟨requests, hlen, hbuf, hcount⟩ := ih
        exact ⟨requests, hlen, by rw [ha, hbuf], by rw [hc]; exact hcount⟩
      · exact ⟨[], by simp, by rw [ha]; rfl, Nat.zero_le _⟩
    | afterWrote s _ ih => exact ih
  obtain ⟨requests, hlen, hbuf, hcount⟩ := hinv
  exact ⟨requests, hlen, hbuf, by rw [hbuf]; exact isCommandLog_encodeRequests requests hlen,
    hcount⟩

/-- C20 at a concrete run: a fresh manager, one `SET`, one `GET`, one tick. -/
theorem C20_command_log_invariant_witness :
    ∃ requests : List (List Nat), (∀ r ∈ requests, r.length < 2 ^ 64) ∧
      (writable sampleOps 0 (query sampleOps (query sampleOps (DatabaseManager.initial sampleOps)
        [7, 0, 0, 0, 0, 0, 0, 0, 0, 107]).manager [8, 0, 0, 0, 0, 0, 0, 0, 0, 107]).manager).1.aofBuffer
        = encodeRequests requests ∧
      IsCommandLog (writable sampleOps 0 (query sampleOps (query sampleOps
        (DatabaseManager.initial sampleOps)
        [7, 0, 0, 0, 0, 0, 0, 0, 0, 107]).manager [8, 0, 0, 0, 0, 0, 0, 0, 0, 107]).manager).1.aofBuffer ∧
      requests.length ≤ (writable sampleOps 0 (query sampleOps (query sampleOps
        (DatabaseManager.initial sampleOps)
        [7, 0, 0, 0, 0, 0, 0, 0, 0, 107]).manager [8, 0, 0, 0, 0, 0, 0, 0, 0, 107]).manager).1.writeCount :=
  C20_command_log_invariant sampleOps _
    (Reachable.afterWritable _ 0
      (Reachable.afterQuery _ [8, 0, 0, 0, 0, 0, 0, 0, 0, 107]
        (Reachable.afterQuery _ [7, 0, 0, 0, 0, 0, 0, 0, 0, 107]
          (Reachable.constructed none (DatabaseManager.initial sampleOps)
            (fun _ h => by simp at h) rfl)
          (by decide))
        (by decide)))

end TinyKV
